import Mathlib

/-!
Verification of the Eduripple-backend curriculum extraction pipeline.

This file gives a shallow embedding, in Lean 4, of the text-processing core
of the repository: the CBC PDF field extractors (`cbc_parser.py`), the
competency/value/link/PCI classifier (`lesson_generator.py`) and the
record assembler / completeness scoring (`curriculum_db.py`).  Python
strings are modelled as `List Char` internally (`String` at the API
boundary); the concrete regular expressions used by the source are
translated pattern-by-pattern into executable matching functions whose
semantics (leftmost match, greedy quantifiers with the backtracking
behaviour relevant to each pattern) follow Python's `re` module on the
pattern in question.  Whitespace (`\s`) and character classes are modelled
over their ASCII members, matching every input exercised here.
-/

set_option maxRecDepth 10000

/-- Characters matched by Python's `\s` (ASCII range): space, tab,
newline, carriage return, vertical tab, form feed. -/
def pyWs (c : Char) : Bool :=
  c == ' ' || c == '\t' || c == '\n' || c == '\x0d' || c == '\x0b' || c == '\x0c'

/-- ASCII decimal digit, Python `\d` (ASCII range). -/
def pyDigit (c : Char) : Bool :=
  '0' ≤ c && c ≤ '9'

/-- Python word character `\w` (ASCII range): letter, digit or underscore. -/
def pyWord (c : Char) : Bool :=
  ('a' ≤ c && c ≤ 'z') || ('A' ≤ c && c ≤ 'Z') || pyDigit c || c == '_'

/-- Lower-case a character list, modelling Python `str.lower` (ASCII). -/
def lcase (l : List Char) : List Char :=
  l.map Char.toLower

/-- Python `str.strip()` on a character list: drop leading and trailing
whitespace. -/
def stripWs (l : List Char) : List Char :=
  ((l.dropWhile pyWs).reverse.dropWhile pyWs).reverse

/-- Python `str.strip(cs)` with an explicit character set. -/
def stripSet (cs : List Char) (l : List Char) : List Char :=
  ((l.dropWhile (· ∈ cs)).reverse.dropWhile (· ∈ cs)).reverse

/-- Auxiliary for `collapseWs`: the flag records whether the previous
character was whitespace (so the run has already emitted its space). -/
def collapseWsAux : List Char → Bool → List Char
  | [], _ => []
  | c :: rest, prevWs =>
    if pyWs c then
      if prevWs then collapseWsAux rest true
      else ' ' :: collapseWsAux rest true
    else c :: collapseWsAux rest false

/-- Python `re.sub(r"\s+", " ", s)`: every maximal whitespace run becomes a
single space. -/
def collapseWs (l : List Char) : List Char :=
  collapseWsAux l false

/-- Exact substring test (Python `needle in haystack`). -/
def containsSeq (needle : List Char) : List Char → Bool
  | [] => needle.isEmpty
  | c :: rest => needle.isPrefixOf (c :: rest) || containsSeq needle rest

/-- Case-insensitive substring test: the needle is given lower-case and the
haystack is lower-cased before searching. -/
def containsCI (needle : String) (hay : List Char) : Bool :=
  containsSeq needle.toList (lcase hay)

/-- Match a literal case-insensitively at the head of the input, returning
the remainder.  The literal is given lower-case. -/
def dropLitCI : List Char → List Char → Option (List Char)
  | [], s => some s
  | _ :: _, [] => none
  | l :: ls, c :: cs => if c.toLower = l then dropLitCI ls cs else none

/-- Optionally consume one character matching `l` case-insensitively
(greedy `x?` where the following token cannot need the character back). -/
def optLitCI (l : Char) (s : List Char) : List Char :=
  match s with
  | c :: cs => if c.toLower = l then cs else s
  | [] => s

/-- Greedy `\s+`: at least one whitespace character, consuming the maximal
run. -/
def dropWs1 (s : List Char) : Option (List Char) :=
  match s with
  | c :: cs => if pyWs c then some (cs.dropWhile pyWs) else none
  | [] => none

/-- Greedy `\s*`. -/
def dropWsStar (s : List Char) : List Char :=
  s.dropWhile pyWs

/-- First-seen-order exact deduplication (Python `list(dict.fromkeys(l))`),
with the set of already-seen keys as accumulator. -/
def dedupFirstAux (seen : List String) : List String → List String
  | [] => []
  | x :: xs =>
    if x ∈ seen then dedupFirstAux seen xs
    else x :: dedupFirstAux (x :: seen) xs

/-- Python `list(dict.fromkeys(l))`. -/
def dedupFirst (l : List String) : List String :=
  dedupFirstAux [] l

/-- First-seen-order deduplication under a key function (the Python
`seen`-set idiom `key = f(item); if key in seen: continue`). -/
def dedupByKeyAux (key : String → String) (seen : List String) :
    List String → List String
  | [] => []
  | x :: xs =>
    if key x ∈ seen then dedupByKeyAux key seen xs
    else x :: dedupByKeyAux key (key x :: seen) xs

/-- Deduplicate by key, first occurrence kept. -/
def dedupByKey (key : String → String) (l : List String) : List String :=
  dedupByKeyAux key [] l

/-- Python `str.lower` at `String` level. -/
def strLower (s : String) : String :=
  String.mk (lcase s.toList)

/-- A Python value as it can appear in the classifier's input list:
`None`, a string, or any non-string object. -/
inductive PyVal where
  | pyNone
  | pyStr (s : String)
  | pyOther
deriving DecidableEq

/-! ## lesson_generator.py — `_classify_competency_items`

The classifier receives the raw mixed items from the competency/value
extractors and routes each to one of four lists (or drops it).  The regex
cascade below is translated branch by branch from the source.
-/

/-- Value keywords of `_classify_competency_items` (branch 5). -/
def valueKeywords : List String :=
  ["respect", "responsibility", "unity", "love", "patriotism",
   "integrity", "peace", "social justice", "humility", "cooperation",
   "self-esteem", "self-confidence", "sharing", "caring"]

/-- Subject names of `_classify_competency_items` (branch 6). -/
def subjectNames : List String :=
  ["kiswahili", "french", "german", "arabic", "indigenous languages",
   "english", "mathematics", "integrated science", "social studies",
   "pre-technical", "pre technical", "creative arts", "agriculture",
   "nutrition", "cre", "ire", "hre"]

/-- Teaching-context words of `_classify_competency_items` (branch 6). -/
def teachWords : List String :=
  ["teach", "learnt", "learn", "relate", "use ", "used in",
   "apply", "language", "skills"]

/-- `re.match(r'^links?\s+to\s+(other\s+)?(subject|learning)', lowered)`.
The optional `other\s+` group is greedy; if the trailing alternative fails
after consuming it, Python retries without it, hence the disjunction. -/
def linkRuleMatch (t : List Char) : Bool :=
  match dropLitCI "link".toList t with
  | none => false
  | some r0 =>
    let r1 := optLitCI 's' r0
    match dropWs1 r1 with
    | none => false
    | some r2 =>
      match dropLitCI "to".toList r2 with
      | none => false
      | some r3 =>
        match dropWs1 r3 with
        | none => false
        | some r4 =>
          let tail := fun (r : List Char) =>
            (dropLitCI "subject".toList r).isSome ||
            (dropLitCI "learning".toList r).isSome
          (match dropLitCI "other".toList r4 with
           | some r5 =>
             match dropWs1 r5 with
             | some r6 => tail r6
             | none => false
           | none => false) || tail r4

/-- Tail of the link-strip pattern after the subject/learning noun:
`\s*:?\s*`. -/
def linkStripTail (r : List Char) : List Char :=
  dropWsStar (optLitCI ':' (dropWsStar r))

/-- The `(?:subjects?|learning\s+areas?)\s*:?\s*` part of the link-strip
pattern. -/
def linkStripNoun (r : List Char) : Option (List Char) :=
  match dropLitCI "subject".toList r with
  | some r5 => some (linkStripTail (optLitCI 's' r5))
  | none =>
    match dropLitCI "learning".toList r with
    | some r5 =>
      match dropWs1 r5 with
      | some r6 =>
        match dropLitCI "area".toList r6 with
        | some r7 => some (linkStripTail (optLitCI 's' r7))
        | none => none
      | none => none
    | none => none

/-- `re.sub(r'^links?\s+to\s+(?:other\s+)?(?:subjects?|learning\s+areas?)\s*:?\s*', '', text, flags=I)`:
returns the remainder after the matched head, or `none` when the pattern
does not match (so `re.sub` leaves the text unchanged). -/
def linkRuleStrip (t : List Char) : Option (List Char) :=
  match dropLitCI "link".toList t with
  | none => none
  | some r0 =>
    let r1 := optLitCI 's' r0
    match dropWs1 r1 with
    | none => none
    | some r2 =>
      match dropLitCI "to".toList r2 with
      | none => none
      | some r3 =>
        match dropWs1 r3 with
        | none => none
        | some r4 =>
          match dropLitCI "other".toList r4 with
          | some r5 =>
            (match dropWs1 r5 with
             | some r6 =>
               match linkStripNoun r6 with
               | some r7 => some r7
               | none => linkStripNoun r4
             | none => linkStripNoun r4)
          | none => linkStripNoun r4

/-- The `contemporary\s+issues` tail of the PCI core pattern. -/
def pertContPart (r : List Char) : Option (List Char) :=
  match dropLitCI "contemporary".toList r with
  | none => none
  | some r2 =>
    match dropWs1 r2 with
    | none => none
    | some r3 => dropLitCI "issues".toList r3

/-- Mandatory core `^pertinent\s+(and\s+)?contemporary\s+issues` shared by
the PCI match and strip patterns.  As with `other\s+`, the optional
`and\s+` group backtracks to absent when the continuation fails. -/
def pertCore (t : List Char) : Option (List Char) :=
  match dropLitCI "pertinent".toList t with
  | none => none
  | some r0 =>
    match dropWs1 r0 with
    | none => none
    | some r1 =>
      match dropLitCI "and".toList r1 with
      | some r1a =>
        (match dropWs1 r1a with
         | some r1b =>
           match pertContPart r1b with
           | some r => some r
           | none => pertContPart r1
         | none => pertContPart r1)
      | none => pertContPart r1

/-- `re.match(r'^pertinent\s+(and\s+)?contemporary\s+issues', lowered)`. -/
def pertMatch (t : List Char) : Bool :=
  (pertCore t).isSome

/-- `lowered.startswith('pci')`. -/
def pciStart (t : List Char) : Bool :=
  (dropLitCI "pci".toList t).isSome

/-- The optional `(?:\(?pcis?\)?)?` group of the PCI strip pattern: an
optional parenthesis, the mandatory `pci`, optional `s`, optional closing
parenthesis; when `pci` is absent the whole group matches nothing. -/
def pertParen (r : List Char) : List Char :=
  match r with
  | c :: r1 =>
    if c = '(' then
      match dropLitCI "pci".toList r1 with
      | some r2 => optLitCI ')' (optLitCI 's' r2)
      | none => r
    else
      match dropLitCI "pci".toList r with
      | some r2 => optLitCI ')' (optLitCI 's' r2)
      | none => r
  | [] => r

/-- `re.sub(r'^pertinent\s+(?:and\s+)?contemporary\s+issues\s*(?:\(?pcis?\)?)?\s*:?\s*', '', text, flags=I)`,
as the remainder after the match (or `none` when it does not match). -/
def pertStrip (t : List Char) : Option (List Char) :=
  match pertCore t with
  | none => none
  | some r =>
    some (dropWsStar (optLitCI ':' (dropWsStar (pertParen (dropWsStar r)))))

/-- `re.match(r'^values?\s*:?\s+', lowered)`.  After `values?`, the regex
`\s*:?\s+` matches exactly when the remainder starts with whitespace
(backtracking hands one space to the final `\s+`) or starts with a colon
followed by whitespace. -/
def valuesKeyMatch (t : List Char) : Bool :=
  match dropLitCI "value".toList t with
  | none => false
  | some r0 =>
    let r1 := optLitCI 's' r0
    (match r1.head? with
     | some c => pyWs c
     | none => false) ||
    (match r1 with
     | ':' :: r2 =>
       match r2.head? with
       | some c => pyWs c
       | none => false
     | _ => false)

/-- `re.sub(r'^values?\s*:?\s*', '', text, flags=I)` as the remainder after
the greedy match (or `none` when `value` is not a head literal, leaving the
text unchanged). -/
def valuesStrip (t : List Char) : Option (List Char) :=
  match dropLitCI "value".toList t with
  | none => none
  | some r0 =>
    some (dropWsStar (optLitCI ':' (dropWsStar (optLitCI 's' r0))))

/-- Destination of a single classifier input item: one of the four output
lists, or dropped. -/
inductive ItemDest where
  | dropped
  | toComp (s : String)
  | toVal (s : String)
  | toLink (s : String)
  | toPci (s : String)
deriving DecidableEq

/-- One iteration of the `for item in items` loop of
`_classify_competency_items`: the branch cascade ends in a `continue`
after at most one `append`, so each item reaches exactly one destination. -/
def classifyStep : PyVal → ItemDest
  | PyVal.pyNone => ItemDest.dropped
  | PyVal.pyOther => ItemDest.dropped
  | PyVal.pyStr s =>
    -- `if not item or not isinstance(item, str) or len(item.strip()) < 4`
    if s.toList.isEmpty || (stripWs s.toList).length < 4 then ItemDest.dropped
    else
      let text := stripWs s.toList
      let low := lcase text
      if linkRuleMatch text then
        let cleaned := stripWs ((linkRuleStrip text).getD text)
        if cleaned.isEmpty then ItemDest.dropped
        else ItemDest.toLink (String.mk cleaned)
      else if containsSeq "link to other".toList low ||
              containsSeq "links to other".toList low then
        ItemDest.toLink (String.mk text)
      else if pertMatch text || pciStart text then
        let cleaned := stripWs ((pertStrip text).getD text)
        if cleaned.isEmpty then ItemDest.dropped
        else ItemDest.toPci (String.mk cleaned)
      else if valuesKeyMatch text then
        let cleaned := stripWs ((valuesStrip text).getD text)
        if cleaned.isEmpty then ItemDest.dropped
        else ItemDest.toVal (String.mk cleaned)
      else if valueKeywords.any (fun w => containsSeq w.toList low) &&
              text.length < 200 then
        ItemDest.toVal (String.mk text)
      else if text.length < 80 &&
              subjectNames.any (fun w => containsSeq w.toList low) then
        if teachWords.any (fun w => containsSeq w.toList low) ||
           text.length < 30 then
          ItemDest.toLink (String.mk text)
        else
          ItemDest.toComp (String.mk text)
      else
        ItemDest.toComp (String.mk text)

/-- The raw (pre-deduplication) competencies list of the classifier. -/
def rawComps (items : List PyVal) : List String :=
  items.filterMap fun it =>
    match classifyStep it with
    | ItemDest.toComp s => some s
    | _ => none

/-- The raw (pre-deduplication) values list of the classifier. -/
def rawVals (items : List PyVal) : List String :=
  items.filterMap fun it =>
    match classifyStep it with
    | ItemDest.toVal s => some s
    | _ => none

/-- The raw (pre-deduplication) links list of the classifier. -/
def rawLinks (items : List PyVal) : List String :=
  items.filterMap fun it =>
    match classifyStep it with
    | ItemDest.toLink s => some s
    | _ => none

/-- The raw (pre-deduplication) PCIs list of the classifier. -/
def rawPcis (items : List PyVal) : List String :=
  items.filterMap fun it =>
    match classifyStep it with
    | ItemDest.toPci s => some s
    | _ => none

/-- `_classify_competency_items(items)`: the four lists after the final
`list(dict.fromkeys(...))` deduplication. -/
def classify_competency_items (items : List PyVal) :
    List String × List String × List String × List String :=
  (dedupFirst (rawComps items), dedupFirst (rawVals items),
   dedupFirst (rawLinks items), dedupFirst (rawPcis items))

/-! ## curriculum_db.py — completeness scoring and upsert

`insert_curriculum` JSON-encodes the list fields into SQLite TEXT columns
and `parse_curriculum_row` decodes them with `json.loads`; on lists of
strings (and on `None`, stored as the JSON text `null`) this round-trip is
the identity, so the model stores the decoded Python values directly.
`Option` models a field whose Python value is `None`.
-/

/-- The curriculum data dictionary handed to `insert_curriculum` /
`calculate_completeness` (all keys present, values possibly `None`, as
produced by `parse_pdf` and the manual data modules). -/
structure CurriculumData where
  strand : Option String
  substrand : Option String
  learning_outcomes : Option (List String)
  key_inquiry_questions : Option (List String)
  suggested_learning_experiences : Option (List String)
  core_competencies : Option (List String)
  values : Option (List String)
deriving DecidableEq

/-- The check `lambda x: len((x or '').strip()) > 0` of
`calculate_completeness`. -/
def checkStr (x : Option String) : Bool :=
  (stripWs (x.getD "").toList).length > 0

/-- The check `lambda x: len(x or []) >= n` of `calculate_completeness`. -/
def checkListGe (n : Nat) (x : Option (List String)) : Bool :=
  (x.getD []).length ≥ n

/-- The `checks` list of `calculate_completeness`, already applied to the
corresponding fields of the record. -/
def completenessChecks (d : CurriculumData) : List Bool :=
  [checkStr d.strand,
   checkStr d.substrand,
   checkListGe 2 d.learning_outcomes,
   checkListGe 3 d.key_inquiry_questions,
   checkListGe 5 d.suggested_learning_experiences,
   checkListGe 2 d.core_competencies,
   checkListGe 2 d.values]

/-- `calculate_completeness(data)`: `(completed / len(checks)) * 100`. -/
def calculate_completeness (d : CurriculumData) : ℚ :=
  (((completenessChecks d).countP id : ℚ) / ((completenessChecks d).length : ℚ)) * 100

/-- The number of passed checks as the specification words them: strand
non-empty (after stripping), sub-strand non-empty, at least 2 learning
outcomes, at least 3 inquiry questions, at least 5 suggested experiences,
at least 2 competencies, at least 2 values.  This is the claim-side count
used to compare against the code's `calculate_completeness`. -/
def specCompletenessPassed (d : CurriculumData) : Nat :=
  (if (stripWs (d.strand.getD "").toList).length > 0 then 1 else 0) +
  (if (stripWs (d.substrand.getD "").toList).length > 0 then 1 else 0) +
  (if (d.learning_outcomes.getD []).length ≥ 2 then 1 else 0) +
  (if (d.key_inquiry_questions.getD []).length ≥ 3 then 1 else 0) +
  (if (d.suggested_learning_experiences.getD []).length ≥ 5 then 1 else 0) +
  (if (d.core_competencies.getD []).length ≥ 2 then 1 else 0) +
  (if (d.values.getD []).length ≥ 2 then 1 else 0)

/-- One row of the `curriculum` table as stored by `insert_curriculum`
(the `id`, `last_updated` and `notes` columns carry no data relevant to
the claims and are omitted). -/
structure StoredRow where
  subject : String
  grade : String
  strand : Option String
  substrand : Option String
  learning_outcomes : Option (List String)
  key_inquiry_questions : Option (List String)
  suggested_learning_experiences : Option (List String)
  core_competencies : Option (List String)
  curriculum_values : Option (List String)
  status : String
  completeness_score : ℚ
deriving DecidableEq

/-- The `data_to_store` dictionary built inside `insert_curriculum`:
every field of `data` is (JSON-encoded and) stored together with the
freshly computed completeness score. -/
def data_to_store (subject grade : String) (data : CurriculumData)
    (status : String) : StoredRow :=
  { subject := subject
    grade := grade
    strand := data.strand
    substrand := data.substrand
    learning_outcomes := data.learning_outcomes
    key_inquiry_questions := data.key_inquiry_questions
    suggested_learning_experiences := data.suggested_learning_experiences
    core_competencies := data.core_competencies
    curriculum_values := data.values
    status := status
    completeness_score := calculate_completeness data }

/-- `insert_curriculum(subject, grade, data, status)` over a table modelled
as a row list: `INSERT ... ON CONFLICT(subject, grade) DO UPDATE` replaces
the row with the same natural key and otherwise appends a fresh row. -/
def insert_curriculum (subject grade : String) (data : CurriculumData)
    (status : String) (db : List StoredRow) : List StoredRow :=
  let row := data_to_store subject grade data status
  if db.any (fun r => r.subject == subject && r.grade == grade) then
    db.map (fun r => if r.subject == subject && r.grade == grade then row else r)
  else
    db ++ [row]

/-- `parse_curriculum_row(row)`: decode the stored row back into the field
dictionary (`curriculum_values` is exposed under the `values` key). -/
def parse_curriculum_row (row : StoredRow) : CurriculumData :=
  { strand := row.strand
    substrand := row.substrand
    learning_outcomes := row.learning_outcomes
    key_inquiry_questions := row.key_inquiry_questions
    suggested_learning_experiences := row.suggested_learning_experiences
    core_competencies := row.core_competencies
    values := row.curriculum_values }

/-! ## cbc_parser.py — text normalisation and line cleaning -/

/-- Auxiliary for `replaceAll`: fuelled scan (one unit of fuel per examined
character position; the patterns used are non-empty, so every step
consumes at least one character). -/
def replaceAllAux (pat rep : List Char) : Nat → List Char → List Char
  | 0, s => s
  | _ + 1, [] => []
  | fuel + 1, c :: rest =>
    if pat.isPrefixOf (c :: rest) then
      rep ++ replaceAllAux pat rep fuel ((c :: rest).drop pat.length)
    else
      c :: replaceAllAux pat rep fuel rest

/-- Python `str.replace(pat, rep)`: leftmost, non-overlapping. -/
def replaceAll (pat rep : List Char) (s : List Char) : List Char :=
  replaceAllAux pat rep s.length s

/-- Flush a pending newline run for `collapseNl`: runs of three or more
newlines become exactly two (`re.sub(r"\n{3,}", "\n\n", text)`). -/
def nlFlush (n : Nat) : List Char :=
  if n ≥ 3 then ['\n', '\n'] else List.replicate n '\n'

/-- Auxiliary for `collapseNl`, carrying the current newline-run length. -/
def collapseNlAux : List Char → Nat → List Char
  | [], n => nlFlush n
  | c :: rest, n =>
    if c = '\n' then collapseNlAux rest (n + 1)
    else nlFlush n ++ (c :: collapseNlAux rest 0)

/-- `re.sub(r"\n{3,}", "\n\n", text)`. -/
def collapseNl (l : List Char) : List Char :=
  collapseNlAux l 0

/-- The mojibake replacement table of `normalize_text`, in the source's
insertion order.  `\u009D` is the stray control byte in the broken
right-double-quote sequence. -/
def mojibakePairs : List (String × String) :=
  [("â€™", "'"), ("â€˜", "'"), ("â€œ", "\""), ("â€\u009D", "\""),
   ("â€“", "-"), ("â€”", "-"), ("Â", "")]

/-- `normalize_text(text)`: apply the replacement table, fold carriage
returns into newlines, collapse runs of three or more newlines. -/
def normalize_text (s : String) : String :=
  let t := mojibakePairs.foldl
    (fun acc p => replaceAll p.1.toList p.2.toList acc) s.toList
  let t := replaceAll ['\x0d'] ['\n'] t
  String.mk (collapseNl t)

/-- Roman-numeral characters of the `meaningful_line` filter. -/
def romanChars : List Char :=
  ['i', 'v', 'x', 'l', 'c', 'd', 'm']

/-- `meaningful_line(line)`: drop blank lines, bare roman numerals, bare
numbers and single characters. -/
def meaningful_line (line : List Char) : Bool :=
  let cleaned := stripWs line
  if cleaned.isEmpty then false
  else if (lcase cleaned).all (fun c => c ∈ romanChars) then false
  else if cleaned.all pyDigit then false
  else if cleaned.length < 2 then false
  else true

/-- Split on a single separator character, keeping empty pieces
(Python `str.split(sep)`). -/
def splitCharAux (sep : Char) : List Char → List Char → List (List Char)
  | [], acc => [acc.reverse]
  | c :: rest, acc =>
    if c = sep then acc.reverse :: splitCharAux sep rest []
    else splitCharAux sep rest (c :: acc)

/-- Python `str.split(sep)` for a one-character separator. -/
def splitChar (sep : Char) (l : List Char) : List (List Char) :=
  splitCharAux sep l []

/-- Split on any of several one-character separators (used for regex
alternations such as `\n|\r` and `\n|;`). -/
def splitAnyCharAux (seps : List Char) : List Char → List Char → List (List Char)
  | [], acc => [acc.reverse]
  | c :: rest, acc =>
    if c ∈ seps then acc.reverse :: splitAnyCharAux seps rest []
    else splitAnyCharAux seps rest (c :: acc)

/-- `re.split` over an alternation of single characters. -/
def splitAnyChar (seps : List Char) (l : List Char) : List (List Char) :=
  splitAnyCharAux seps l []

/-- `clean_lines(text)`: split into lines, strip, keep meaningful lines,
collapse internal whitespace. -/
def clean_lines (text : String) : List String :=
  ((((splitChar '\n' text.toList).map stripWs).filter meaningful_line).map
    (fun l => stripWs (collapseWs l))).map String.mk

/-! ## cbc_parser.py — strand / sub-strand extraction -/

/-- Optionally consume one character from a set (greedy `[..]?`). -/
def optCharSet (cs : List Char) (s : List Char) : List Char :=
  match s with
  | c :: rest => if c ∈ cs then rest else s
  | [] => s

/-- Search for `grade\s*\d` anywhere in an (already lower-cased) line. -/
def gradeDigitSearch : List Char → Bool
  | [] => false
  | c :: rest =>
    ("grade".toList.isPrefixOf (c :: rest) &&
      ((((c :: rest).drop 5).dropWhile pyWs).head?.any pyDigit)) ||
    gradeDigitSearch rest

/-- Rejected `normalized` values of `extract_first_field`. -/
def firstFieldStop : List String :=
  ["the", "the learner", "learner", "sub strand", "strand"]

/-- One line of `extract_first_field`: match
`^<field>\s*[:\-]?\s*(.+)$` (case-insensitive) and run the acceptance
filters, returning the accepted value.  When the separator consumes the
whole remainder the Python group backtracks onto trailing separator or
space characters, whose `.strip(" .:-")` is empty and falls into the
`len(value) < 3` rejection; the cleaned lines processed here contain no
other whitespace, so computing the value from the post-separator
remainder is exact. -/
def extract_first_field_line (field : List Char) (line : List Char) :
    Option (List Char) :=
  match dropLitCI field line with
  | none => none
  | some r =>
    if r.isEmpty then none
    else
      let r3 := dropWsStar (optCharSet [':', '-'] (dropWsStar r))
      let value := stripSet [' ', '.', ':', '-'] r3
      let normalized := lcase (stripSet [' ', ',', ':', '-'] value)
      if value.length < 3 then none
      else if String.mk normalized ∈ firstFieldStop then none
      else if "the learner".toList.isPrefixOf normalized then none
      else
        let lv := lcase value
        if containsSeq "summary of".toList lv ||
           containsSeq "sub strands".toList lv ||
           gradeDigitSearch lv ||
           containsSeq "...".toList lv then none
        else some value

/-- `extract_first_field(lines, field)`: the first line whose labelled
value passes the filters, else the empty string. -/
def extract_first_field (lines : List String) (field : String) : String :=
  match (lines.map String.toList).findSome?
      (extract_first_field_line (lcase field.toList)) with
  | some v => String.mk v
  | none => ""

/-- Maximal leading digit run. -/
def takeDigits (t : List Char) : List Char × List Char :=
  (t.takeWhile pyDigit, t.dropWhile pyDigit)

/-- `re.match(r"^\d+\.\d+\s+", line)`. -/
def numNNwsMatch (t : List Char) : Bool :=
  let (d1, r1) := takeDigits t
  if d1.isEmpty then false
  else
    match r1 with
    | '.' :: r2 =>
      let (d2, r3) := takeDigits r2
      if d2.isEmpty then false else r3.head?.any pyWs
    | _ => false

/-- `re.match(r"^\d+\.\d+(?:\.\d+)?\s+", text)`: the optional third
numeric component is taken only when a digit follows its dot (otherwise
the regex backtracks to the two-component form and `\s+` must match at
the dot, which fails). -/
def headingNumMatch (t : List Char) : Bool :=
  let (d1, r1) := takeDigits t
  if d1.isEmpty then false
  else
    match r1 with
    | '.' :: r2 =>
      let (d2, r3) := takeDigits r2
      if d2.isEmpty then false
      else
        match r3 with
        | '.' :: r4 =>
          if r4.head?.any pyDigit then (r4.dropWhile pyDigit).head?.any pyWs
          else r3.head?.any pyWs
        | _ => r3.head?.any pyWs
    | _ => false

/-- Keywords whose presence disqualifies a heading line. -/
def headingStopWords : List String :=
  ["learner", "suggested", "assessment", "question", "experience"]

/-- `looks_like_heading(line)`. -/
def looks_like_heading (line : List Char) : Bool :=
  let text := stripWs line
  if text.length < 6 || text.length > 120 then false
  else if headingStopWords.any (fun w => containsSeq w.toList (lcase text)) then false
  else headingNumMatch text

/-- `re.match(r"^(\d+\.\d+)\b", strand)`: the two-component numeric head
with a word boundary after the final digit (the digit run is maximal, so
the boundary holds exactly when the next character is not a word
character). -/
def parentNN (t : List Char) : Option (List Char) :=
  let (d1, r1) := takeDigits t
  if d1.isEmpty then none
  else
    match r1 with
    | '.' :: r2 =>
      let (d2, r3) := takeDigits r2
      if d2.isEmpty then none
      else if r3.head?.any pyWord then none
      else some (d1 ++ '.' :: d2)
    | _ => none

/-- `extract_strand_substrand(lines)`. -/
def extract_strand_substrand (lines : List String) : String × String :=
  let strand0 := extract_first_field lines "Strand"
  let substrand0 := extract_first_field lines "Sub-strand"
  let headings := (lines.map String.toList).filter looks_like_heading
  let strand :=
    if strand0 = "" then
      match headings.find? numNNwsMatch with
      | some l => String.mk l
      | none => strand0
    else strand0
  let substrand :=
    if substrand0 = "" && strand ≠ "" then
      match parentNN strand.toList with
      | some nn =>
        let pre := nn ++ ['.']
        match headings.find? (fun l => pre.isPrefixOf l) with
        | some l => String.mk l
        | none => substrand0
      | none => substrand0
    else substrand0
  (strand, substrand)

/-! ## cbc_parser.py — `extract_question_lines` -/

/-- Upper-case ASCII letter (regex `[A-Z]`). -/
def pyUpper (c : Char) : Bool :=
  'A' ≤ c && c ≤ 'Z'

/-- The label alternation
`(?:Key\s+Inquiry\s+Questions?|Inquiry\s+Questions?)` at the head of the
input: the first alternative is tried first; both remain unmatchable at a
position where the other matched, so no cross-backtracking arises. -/
def kiqLabel (t : List Char) : Option (List Char) :=
  match (((((dropLitCI "key".toList t).bind dropWs1).bind
      (dropLitCI "inquiry".toList)).bind dropWs1).bind
      (dropLitCI "question".toList)).map (optLitCI 's') with
  | some r => some r
  | none =>
    ((((dropLitCI "inquiry".toList t).bind dropWs1).bind
        (dropLitCI "question".toList))).map (optLitCI 's')

/-- The `(?:\n[^?\n]*\?[^\n]*)*` continuation of the pattern-1 capture:
greedily absorb further lines as long as each contains a `?`. -/
def kiqMoreLines : Nat → List Char → List Char × List Char
  | 0, t => ([], t)
  | fuel + 1, t =>
    match t with
    | '\n' :: r =>
      let a := r.takeWhile (fun c => !(c == '?' || c == '\n'))
      (match r.drop a.length with
       | '?' :: r2 =>
         let b := r2.takeWhile (fun c => !(c == '\n'))
         let (more, rest) := kiqMoreLines fuel (r2.drop b.length)
         ('\n' :: (a ++ '?' :: (b ++ more)), rest)
       | _ => ([], t))
    | _ => ([], t)

/-- The capture `([^?\n]*\?[^\n]*(?:\n[^?\n]*\?[^\n]*)*)`: the current
line must contain `?` before its newline, then the rest of that line and a
maximal run of further `?`-containing lines are absorbed.  Returns the
captured text and the remainder after the match. -/
def kiqCapture (t : List Char) : Option (List Char × List Char) :=
  let a := t.takeWhile (fun c => !(c == '?' || c == '\n'))
  match t.drop a.length with
  | '?' :: r2 =>
    let b := r2.takeWhile (fun c => !(c == '\n'))
    let (more, rest) := kiqMoreLines (r2.drop b.length).length (r2.drop b.length)
    some (a ++ '?' :: (b ++ more), rest)
  | _ => none

/-- Attempt the full pattern-1 match at the current position.  The
separator `\s*[:\-]?\s*` is taken greedily: if the capture then fails, no
backtracking of the separator can succeed, because the capture's first
line needs a `?` before its newline and handing whitespace (or the
optional `s`/colon) back to the capture only prepends `?`-free characters
on the same or an earlier line. -/
def kiqTryAt (t : List Char) : Option (List Char × List Char) :=
  match kiqLabel t with
  | none => none
  | some r => kiqCapture (dropWsStar (optCharSet [':', '-'] (dropWsStar r)))

/-- `re.findall` of the pattern-1 regex: leftmost, non-overlapping. -/
def kiqFindAll : Nat → List Char → List (List Char)
  | 0, _ => []
  | _ + 1, [] => []
  | fuel + 1, c :: rest =>
    match kiqTryAt (c :: rest) with
    | some (cap, after) => cap :: kiqFindAll fuel after
    | none => kiqFindAll fuel rest

/-- Pattern 1 of `extract_question_lines`: split each captured block on
`\n|;`, strip `" -•"` then whitespace, keep items of length 8–300 that
contain `?`. -/
def kiqPattern1 (full_text : List Char) : List (List Char) :=
  ((kiqFindAll full_text.length full_text).map fun m =>
    (splitAnyChar ['\n', ';'] m).filterMap fun item =>
      let it := stripWs (stripSet [' ', '-', '•'] item)
      if 8 ≤ it.length && it.length ≤ 300 && it.contains '?' then some it
      else none).flatten

/-- Search for `page \d` anywhere in an (already lower-cased) line. -/
def pageDigitSearch : List Char → Bool
  | [] => false
  | c :: rest =>
    ("page ".toList.isPrefixOf (c :: rest) &&
      ((c :: rest).drop 5).head?.any pyDigit) ||
    pageDigitSearch rest

/-- The metadata filter of pattern 2:
`re.search(r"table|contents|page \d|grade|subject|strand", line, re.I)`. -/
def kiqBoiler2 (line : List Char) : Bool :=
  let lv := lcase line
  containsSeq "table".toList lv || containsSeq "contents".toList lv ||
  pageDigitSearch lv || containsSeq "grade".toList lv ||
  containsSeq "subject".toList lv || containsSeq "strand".toList lv

/-- Pattern 2 of `extract_question_lines`: lines containing `?`, not
metadata, of length 8–300. -/
def kiqPattern2 (lines : List (List Char)) : List (List Char) :=
  lines.filterMap fun l0 =>
    let l := stripWs l0
    if !(l.contains '?') then none
    else if kiqBoiler2 l then none
    else if 8 ≤ l.length && l.length ≤ 300 then some l
    else none

/-- One pattern-3 match attempt: `[A-Z][^?]*\?` at the current position
(an upper-case letter with a `?` somewhere after it; `[^?]*` runs exactly
up to that `?`). -/
def kiqSentenceAt (t : List Char) : Option (List Char × List Char) :=
  match t with
  | c :: rest =>
    if pyUpper c then
      let a := rest.takeWhile (fun x => !(x == '?'))
      match rest.drop a.length with
      | '?' :: r2 => some (c :: (a ++ ['?']), r2)
      | _ => none
    else none
  | [] => none

/-- The metadata filter of pattern 3:
`re.search(r"table|page|grade|subject", match, re.I)`. -/
def kiqBoiler3 (m : List Char) : Bool :=
  let lv := lcase m
  containsSeq "table".toList lv || containsSeq "page".toList lv ||
  containsSeq "grade".toList lv || containsSeq "subject".toList lv

/-- `re.findall(r"[A-Z][^?]*\?", full_text)` with the 8–300/metadata
filter applied to each stripped match. -/
def kiqPattern3Aux : Nat → List Char → List (List Char)
  | 0, _ => []
  | _ + 1, [] => []
  | fuel + 1, c :: rest =>
    match kiqSentenceAt (c :: rest) with
    | some (m, after) =>
      let m := stripWs m
      if 8 ≤ m.length && m.length ≤ 300 && !kiqBoiler3 m then
        m :: kiqPattern3Aux fuel after
      else
        kiqPattern3Aux fuel after
    | none => kiqPattern3Aux fuel rest

/-- Pattern 3 of `extract_question_lines`. -/
def kiqPattern3 (full_text : List Char) : List (List Char) :=
  kiqPattern3Aux full_text.length full_text

/-- The final deduplication loop of `extract_question_lines`: collapse
whitespace, append `?` when the candidate does not already end with one,
deduplicate on the lower-cased text, keep candidates of length ≥ 8. -/
def kiqFinalizeAux (seen : List (List Char)) : List (List Char) → List String
  | [] => []
  | q :: qs =>
    let qc0 := stripWs (collapseWs q)
    let qc := if qc0.getLast? = some '?' then qc0 else qc0 ++ ['?']
    let key := lcase qc
    if key ∈ seen || qc.length < 8 then kiqFinalizeAux seen qs
    else String.mk qc :: kiqFinalizeAux (key :: seen) qs

/-- `extract_question_lines(lines, full_text)`: all three patterns pooled,
deduplicated, capped at 15. -/
def extract_question_lines (lines : List String) (full_text : String) :
    List String :=
  let cands := kiqPattern1 full_text.toList ++
    kiqPattern2 (lines.map String.toList) ++
    kiqPattern3 full_text.toList
  (kiqFinalizeAux [] cands).take 15

/-! ## cbc_parser.py — `extract_block_items` (specialised to its single
call site in `extract_learning_outcomes`) -/

/-- The heading `specific\s+learning\s+outcomes?\s*[:\-]?` at the head of
the input, returning the remainder after the match end. -/
def sloHeadAt (t : List Char) : Option (List Char) :=
  (((((dropLitCI "specific".toList t).bind dropWs1).bind
      (dropLitCI "learning".toList)).bind dropWs1).bind
      (dropLitCI "outcome".toList)).map fun r =>
    optCharSet [':', '-'] (dropWsStar (optLitCI 's' r))

/-- `re.search` for the heading: leftmost occurrence, remainder after it. -/
def sloSearch : Nat → List Char → Option (List Char)
  | 0, _ => none
  | _ + 1, [] => none
  | fuel + 1, c :: rest =>
    match sloHeadAt (c :: rest) with
    | some r => some r
    | none => sloSearch fuel rest

/-- The stop alternation
`key\s+inquiry\s+questions?|suggested\s+learning\s+experiences|core\s+competencies|values`
matching at the current position (only the start position matters, so the
optional `s` of `questions?` is irrelevant). -/
def loStopAt (t : List Char) : Bool :=
  (((((dropLitCI "key".toList t).bind dropWs1).bind
      (dropLitCI "inquiry".toList)).bind dropWs1).bind
      (dropLitCI "question".toList)).isSome ||
  (((((dropLitCI "suggested".toList t).bind dropWs1).bind
      (dropLitCI "learning".toList)).bind dropWs1).bind
      (dropLitCI "experiences".toList)).isSome ||
  (((dropLitCI "core".toList t).bind dropWs1).bind
      (dropLitCI "competencies".toList)).isSome ||
  (dropLitCI "values".toList t).isSome

/-- Cut the block at the first stop-heading occurrence
(`block[: stop.start()]`). -/
def blockBeforeStop : Nat → List Char → List Char
  | 0, _ => []
  | _ + 1, [] => []
  | fuel + 1, c :: rest =>
    if loStopAt (c :: rest) then []
    else c :: blockBeforeStop fuel rest

/-- Whole-line test `re.search(r"^strand$|^sub[- ]?strand$", line, re.I)`
(anchored on both sides, so an exact match of the lower-cased line). -/
def isStrandWord (line : List Char) : Bool :=
  let lv := lcase line
  lv = "strand".toList || lv = "substrand".toList ||
  lv = "sub-strand".toList || lv = "sub strand".toList

/-- `extract_block_items(text, heading, stop)` at its call site: the block
between the specific-learning-outcomes heading and the next section
heading, split into lines, cleaned, filtered, deduplicated case-
insensitively and capped at 40. -/
def extract_block_items (text : List Char) : List String :=
  match sloSearch text.length text with
  | none => []
  | some block0 =>
    let block := blockBeforeStop block0.length block0
    let candidates := (splitAnyChar ['\n', '\x0d'] block).filterMap fun raw =>
      let line := stripSet [' ', '-', '•', '\t'] (collapseWs raw)
      if line.length < 6 then none
      else if line.all pyDigit then none
      else if isStrandWord line then none
      else some (String.mk line)
    (dedupByKey strLower candidates).take 40

/-! ## cbc_parser.py — `extract_competencies` and `extract_values` -/

/-- `core competencies?\s*:` at the current position (a literal space
inside the label; the optional `s` makes the literal `core competencie`
with an optional trailing `s`). -/
def compColonAt (t : List Char) : Bool :=
  match dropLitCI "core competencie".toList t with
  | none => false
  | some r =>
    match dropWsStar (optLitCI 's' r) with
    | ':' :: _ => true
    | _ => false

/-- `re.search(r"core competencies?\s*:", line, re.I)`. -/
def compColonSearch : List Char → Bool
  | [] => false
  | c :: rest => compColonAt (c :: rest) || compColonSearch rest

/-- `values?\s*:` at the current position. -/
def valColonAt (t : List Char) : Bool :=
  match dropLitCI "value".toList t with
  | none => false
  | some r =>
    match dropWsStar (optLitCI 's' r) with
    | ':' :: _ => true
    | _ => false

/-- `re.search(r"values?\s*:", line, re.I)`. -/
def valColonSearch : List Char → Bool
  | [] => false
  | c :: rest => valColonAt (c :: rest) || valColonSearch rest

/-- `re.split(r":", line, maxsplit=1)[-1]`: everything after the first
colon, or the whole line when there is none. -/
def afterFirstColon (line : List Char) : List Char :=
  match splitChar ':' line with
  | [_] => line
  | _ :: rest => (String.intercalate ":" (rest.map String.mk)).toList
  | [] => line

/-- Keyword set of `extract_competencies`. -/
def compKeywords : List String :=
  ["critical thinking", "communication and collaboration", "digital literacy",
   "self-efficacy", "learning to learn", "citizenship", "creativity"]

/-- `extract_competencies(lines)`. -/
def extract_competencies (lines : List String) : List String :=
  let found := (lines.map String.toList).filterMap fun line =>
    if compColonSearch line then
      let value := stripWs (afterFirstColon line)
      if value.isEmpty then none else some (String.mk value)
    else if compKeywords.any (fun w => containsSeq w.toList (lcase line)) then
      some (String.mk line)
    else none
  (dedupByKey strLower found).take 20

/-- Keyword set of `extract_values`. -/
def valKeywords : List String :=
  ["respect", "integrity", "unity", "responsibility", "honesty",
   "perseverance", "patriotism"]

/-- `extract_values(lines)`. -/
def extract_values (lines : List String) : List String :=
  let found := (lines.map String.toList).filterMap fun line =>
    if valColonSearch line then
      let value := stripWs (afterFirstColon line)
      if value.isEmpty then none else some (String.mk value)
    else if valKeywords.any (fun w => containsSeq w.toList (lcase line)) then
      some (String.mk line)
    else none
  (dedupByKey strLower found).take 20

/-! ## cbc_parser.py — `extract_suggested_learning_experiences` -/

/-- The label alternation
`(?:Suggested\s+Learning\s+Experiences?|Learning\s+Experiences?)`. -/
def sleLabel (t : List Char) : Option (List Char) :=
  match (((((dropLitCI "suggested".toList t).bind dropWs1).bind
      (dropLitCI "learning".toList)).bind dropWs1).bind
      (dropLitCI "experience".toList)).map (optLitCI 's') with
  | some r => some r
  | none =>
    ((((dropLitCI "learning".toList t).bind dropWs1).bind
        (dropLitCI "experience".toList))).map (optLitCI 's')

/-- The pattern-1 lookahead
`(?=\n(?:Key\s+Inquiry|Core\s+Competencies|Values|Assessment|Specific\s+Learning|Strand|$))`:
a newline followed by one of the section labels, or by the end of the
string (`$` also matches just before a final newline). -/
def sleStopLook (t : List Char) : Bool :=
  match t with
  | '\n' :: r =>
    ((((dropLitCI "key".toList r).bind dropWs1).bind
        (dropLitCI "inquiry".toList)).isSome) ||
    ((((dropLitCI "core".toList r).bind dropWs1).bind
        (dropLitCI "competencies".toList)).isSome) ||
    (dropLitCI "values".toList r).isSome ||
    (dropLitCI "assessment".toList r).isSome ||
    ((((dropLitCI "specific".toList r).bind dropWs1).bind
        (dropLitCI "learning".toList)).isSome) ||
    (dropLitCI "strand".toList r).isSome ||
    r.isEmpty || r = ['\n']
  | _ => false

/-- The lazy capture `([^?]*?)` before the lookahead: starting from the
greedy separator position, extend minimally until the lookahead holds; a
`?` or the end of the string kills the match. -/
def sleCapGo : Nat → List Char → List Char → Option (List Char × List Char)
  | 0, _, _ => none
  | fuel + 1, acc, t =>
    if sleStopLook t then some (acc.reverse, t)
    else
      match t with
      | [] => none
      | '?' :: _ => none
      | c :: rest => sleCapGo fuel (c :: acc) rest

/-- Backtracking of the greedy `\s*[:\-]?\s*` separator when the capture
fails from the greedy position: Python retries with ever-earlier capture
starts inside the consumed separator region, and the first success is an
empty capture at the latest lookahead position (necessarily a newline)
inside that region.  The scan keeps the most recent qualifying suffix. -/
def sleSepFallbackAux : Nat → List Char → Nat → Option (List Char) →
    Option (List Char)
  | 0, _, _, best => best
  | fuel + 1, t, glen, best =>
    if t.length ≤ glen then best
    else sleSepFallbackAux fuel t.tail glen
      (if sleStopLook t then some t else best)

/-- One pattern-1 match attempt at the current position: label, greedy
separator, lazy capture, separator backtracking.  Returns the capture and
the remainder after the match end. -/
def sleMatchAt (t : List Char) : Option (List Char × List Char) :=
  match sleLabel t with
  | none => none
  | some r0 =>
    let g := dropWsStar (optCharSet [':', '-'] (dropWsStar r0))
    match sleCapGo (g.length + 1) [] g with
    | some res => some res
    | none =>
      match sleSepFallbackAux r0.length r0 g.length none with
      | some q => some ([], q)
      | none => none

/-- `re.findall` of the pattern-1 regex: leftmost, non-overlapping. -/
def sleFindAll : Nat → List Char → List (List Char)
  | 0, _ => []
  | _ + 1, [] => []
  | fuel + 1, c :: rest =>
    match sleMatchAt (c :: rest) with
    | some (cap, after) => cap :: sleFindAll fuel after
    | none => sleFindAll fuel rest

/-- One delimiter of the item split
`re.split(r"\n\s*[•\-\*]\s+|\n\s*\d+\)[:\s]+|\n(?=[A-Z])", match)`,
alternatives tried in order; returns the remainder after the delimiter. -/
def sleSplitDelim (t : List Char) : Option (List Char) :=
  match t with
  | '\n' :: r =>
    let w := dropWsStar r
    (match w with
     | b :: r3 =>
       if b ∈ ['•', '-', '*'] then
         match dropWs1 r3 with
         | some r4 => some r4
         | none => sleSplitDigits w r
       else sleSplitDigits w r
     | [] => sleSplitDigits w r)
  | _ => none
where
  /-- The `\s*\d+\)[:\s]+` alternative (followed by the `(?=[A-Z])` one). -/
  sleSplitDigits (w r : List Char) : Option (List Char) :=
    let (d, r2) := takeDigits w
    (if d.isEmpty then none
     else
       match r2 with
       | ')' :: r4 =>
         (match r4 with
          | c :: r5 =>
            if c == ':' || pyWs c then
              some (r5.dropWhile (fun x => x == ':' || pyWs x))
            else none
          | [] => none)
       | _ => none).orElse fun _ =>
      if r.head?.any pyUpper then some r else none

/-- `re.split` of the item delimiters over a captured block. -/
def sleSplitItemsAux : Nat → List Char → List Char → List (List Char)
  | 0, acc, _ => [acc.reverse]
  | fuel + 1, acc, t =>
    match sleSplitDelim t with
    | some rest => acc.reverse :: sleSplitItemsAux fuel [] rest
    | none =>
      match t with
      | [] => [acc.reverse]
      | c :: r => sleSplitItemsAux fuel (c :: acc) r

/-- Split a captured pattern-1 block into items. -/
def sleSplitItems (m : List Char) : List (List Char) :=
  sleSplitItemsAux m.length [] m

/-- `re.sub(r"^\d+\.\d+\.?\d*\s*", "", item)`. -/
def sleNumHeadStrip (t : List Char) : List Char :=
  let (d1, r1) := takeDigits t
  if d1.isEmpty then t
  else
    match r1 with
    | '.' :: r2 =>
      let (d2, r3) := takeDigits r2
      if d2.isEmpty then t
      else
        let r4 := match r3 with
          | '.' :: r3b => r3b.dropWhile pyDigit
          | _ => r3
        dropWsStar r4
    | _ => t

/-- `re.sub(r"^\(\d+\s+lessons?\)\s*", "", item)` (no IGNORECASE flag:
the literal `lesson` is matched case-sensitively). -/
def sleLessonsStrip (t : List Char) : List Char :=
  match t with
  | '(' :: r1 =>
    let (d, r2) := takeDigits r1
    if d.isEmpty then t
    else
      (match dropWs1 r2 with
       | some r3 =>
         if "lesson".toList.isPrefixOf r3 then
           let r4 := r3.drop 6
           let r5 := match r4 with
             | 's' :: x => x
             | _ => r4
           match r5 with
           | ')' :: r6 => dropWsStar r6
           | _ => t
         else t
       | none => t)
  | _ => t

/-- `re.sub(r"^•\s*", "", item)`. -/
def sleBulletStrip (t : List Char) : List Char :=
  match t with
  | '•' :: r => dropWsStar r
  | _ => t

/-- Activity-verb keywords of pattern 1. -/
def sleVerbs1 : List String :=
  ["learner", "listen", "read", "write", "discuss", "present", "create",
   "practice", "observe", "identify", "demonstrate", "group", "pair",
   "engage"]

/-- Pattern 1 of `extract_suggested_learning_experiences`: items of the
labelled block, cleaned and filtered by length and activity verbs. -/
def slePattern1 (text : List Char) : List (List Char) :=
  ((sleFindAll text.length text).map fun m =>
    (sleSplitItems m).filterMap fun item0 =>
      let item := stripWs (collapseWs item0)
      let item := sleNumHeadStrip item
      let item := sleLessonsStrip item
      let item := sleBulletStrip item
      if 15 ≤ item.length && item.length ≤ 300 &&
         sleVerbs1.any (fun w => containsSeq w.toList (lcase item)) then
        some item
      else none).flatten

/-- Activity phrases of pattern 2. -/
def slePhrases2 : List String :=
  ["the learner", "learners", "listen to", "read", "write", "discuss",
   "group activity", "pair work", "engage", "observe", "reflect",
   "role play"]

/-- Metadata words of pattern 2. -/
def sleMeta2 : List String :=
  ["strand", "page", "assessment", "rubric", "grade", "subject", "table"]

/-- Pattern 2 of `extract_suggested_learning_experiences`: free-standing
lines with activity phrases and no metadata words. -/
def slePattern2 (text : List Char) : List (List Char) :=
  (splitChar '\n' text).filterMap fun l0 =>
    let line := stripWs l0
    if 15 ≤ line.length && line.length ≤ 300 then
      let lower := lcase line
      if slePhrases2.any (fun w => containsSeq w.toList lower) then
        if sleMeta2.any (fun w => containsSeq w.toList lower) then none
        else some line
      else none
    else none

/-- One pattern-3 match attempt,
`(?:^|\n)\s*[•\-\*]\s+([A-Z][^?\n]{15,300})` with `re.MULTILINE`; the
leading `\s*` absorbs the optional newline of the `(?:^|\n)` head, so a
single whitespace skip covers both alternatives. -/
def sleBulletAt (t : List Char) : Option (List Char × List Char) :=
  let r := dropWsStar t
  match r with
  | b :: r2 =>
    if b ∈ ['•', '-', '*'] then
      match dropWs1 r2 with
      | some r3 =>
        (match r3 with
         | c :: r4 =>
           if pyUpper c then
             let body := (r4.takeWhile (fun x => !(x == '?' || x == '\n'))).take 300
             if body.length ≥ 15 then some (c :: body, r4.drop body.length)
             else none
           else none
         | [] => none)
      | none => none
    else none
  | [] => none

/-- `re.findall` of the pattern-3 regex: a match may start at the
beginning of the text or at a newline (the `^` of `re.MULTILINE` and the
explicit `\n` alternative coincide in effect). -/
def sleBulletFindAux : Nat → Bool → List Char → List (List Char)
  | 0, _, _ => []
  | _ + 1, _, [] => []
  | fuel + 1, atStart, c :: rest =>
    if atStart || c == '\n' then
      match sleBulletAt (c :: rest) with
      | some (m, after) => m :: sleBulletFindAux fuel false after
      | none => sleBulletFindAux fuel (c == '\n') rest
    else sleBulletFindAux fuel (c == '\n') rest

/-- Activity-verb keywords of pattern 3. -/
def sleVerbs3 : List String :=
  ["listen", "read", "write", "discuss", "practice", "observe",
   "identify", "learner"]

/-- Pattern 3 of `extract_suggested_learning_experiences`. -/
def slePattern3 (text : List Char) : List (List Char) :=
  (sleBulletFindAux text.length true text).filterMap fun m =>
    if sleVerbs3.any (fun w => containsSeq w.toList (lcase m)) then
      some (stripWs m)
    else none

/-- The final deduplication loop of
`extract_suggested_learning_experiences`: collapse whitespace, keep
candidates of length ≥ 15, deduplicate on the first 80 characters of the
lower-cased text. -/
def sleDedupAux (seen : List (List Char)) : List (List Char) → List String
  | [] => []
  | e :: es =>
    let exp := stripWs (collapseWs e)
    if exp.length ≥ 15 then
      let key := (lcase exp).take 80
      if key ∈ seen then sleDedupAux seen es
      else String.mk exp :: sleDedupAux (key :: seen) es
    else sleDedupAux seen es

/-- `extract_suggested_learning_experiences(text)` on string input (the
`isinstance` guard for non-string input lives in the Python-call model
below). -/
def extract_suggested_learning_experiences (text : String) : List String :=
  let t := text.toList
  (sleDedupAux [] (slePattern1 t ++ slePattern2 t ++ slePattern3 t)).take 15

/-! ## cbc_parser.py — `extract_learning_outcomes` -/

/-- The head `By\s+the\s+end` of the tier-b pattern. -/
def byEndHead (t : List Char) : Option (List Char) :=
  ((((dropLitCI "by".toList t).bind dropWs1).bind
      (dropLitCI "the".toList)).bind dropWs1).bind
      (dropLitCI "end".toList)

/-- The `[^\n:]{0,120}:` part: at most 120 non-newline non-colon
characters (the run stops at the first colon or newline, so greediness is
vacuous) followed by the colon. -/
def byEndColon (t : List Char) : Option (List Char) :=
  let run := t.takeWhile (fun c => !(c == '\n' || c == ':'))
  if run.length ≤ 120 then
    match t.drop run.length with
    | ':' :: r => some r
    | _ => none
  else none

/-- Section labels of the tier-b lookahead (literal spaces, matched
case-insensitively). -/
def byEndLabels (r : List Char) : Bool :=
  (dropLitCI "core competencies".toList r).isSome ||
  (dropLitCI "values".toList r).isSome ||
  (dropLitCI "key inquiry".toList r).isSome ||
  (dropLitCI "suggested learning".toList r).isSome ||
  (dropLitCI "strand".toList r).isSome ||
  (dropLitCI "sub strand".toList r).isSome

/-- The tier-b lookahead `(?=\n\s*(?:Core competencies|...|$))`: a newline
followed (after optional whitespace) by a section label, or a newline
followed only by whitespace to the end of the string (the `$` case after
the greedy `\s*`). -/
def byEndLook (t : List Char) : Bool :=
  match t with
  | '\n' :: r => byEndLabels (dropWsStar r) || r.all pyWs
  | _ => false

/-- The lazy capture `(.+?)` (DOTALL) of tier b: consume at least one
character, then extend minimally until the lookahead holds. -/
def byEndCapGo : Nat → List Char → List Char → Option (List Char × List Char)
  | 0, _, _ => none
  | fuel + 1, acc, t =>
    if byEndLook t then some (acc.reverse, t)
    else
      match t with
      | [] => none
      | c :: rest => byEndCapGo fuel (c :: acc) rest

/-- Start the tier-b capture (its mandatory first character, then the
lazy extension). -/
def byEndCap (t : List Char) : Option (List Char × List Char) :=
  match t with
  | [] => none
  | c :: rest => byEndCapGo (rest.length + 1) [c] rest

/-- Backtracking of the greedy `\s*` separator of tier b: the first
success when the greedy capture fails is a one-character capture ending at
the latest lookahead position (a newline) strictly inside the consumed
whitespace region. -/
def byEndSepFallbackAux : Nat → List Char → Nat →
    Option (List Char × List Char) → Option (List Char × List Char)
  | 0, _, _, best => best
  | fuel + 1, t, glen, best =>
    match t with
    | [] => best
    | c :: rest =>
      if rest.length ≤ glen then best
      else byEndSepFallbackAux fuel rest glen
        (if byEndLook rest then some ([c], rest) else best)

/-- One tier-b match attempt at the current position. -/
def byEndMatchAt (t : List Char) : Option (List Char × List Char) :=
  match byEndHead t with
  | none => none
  | some r1 =>
    match byEndColon r1 with
    | none => none
    | some r0 =>
      let g := dropWsStar r0
      match byEndCap g with
      | some res => some res
      | none => byEndSepFallbackAux r0.length r0 g.length none

/-- `re.findall` of the tier-b pattern: leftmost, non-overlapping. -/
def byEndFindAll : Nat → List Char → List (List Char)
  | 0, _ => []
  | _ + 1, [] => []
  | fuel + 1, c :: rest =>
    match byEndMatchAt (c :: rest) with
    | some (cap, after) => cap :: byEndFindAll fuel after
    | none => byEndFindAll fuel rest

/-- One delimiter of the tier-b piece split
`re.split(r"\n|\r|\d+\.\s+|[•\-]\s+", block)`. -/
def loSplitDelim (t : List Char) : Option (List Char) :=
  match t with
  | '\n' :: r => some r
  | '\x0d' :: r => some r
  | c :: rest =>
    if pyDigit c then
      let (_, r2) := takeDigits (c :: rest)
      match r2 with
      | '.' :: r3 => dropWs1 r3
      | _ => none
    else if c == '•' || c == '-' then dropWs1 rest
    else none
  | [] => none

/-- `re.split` of the tier-b delimiters over a captured block. -/
def loSplitAux : Nat → List Char → List Char → List (List Char)
  | 0, acc, _ => [acc.reverse]
  | fuel + 1, acc, t =>
    match loSplitDelim t with
    | some rest => acc.reverse :: loSplitAux fuel [] rest
    | none =>
      match t with
      | [] => [acc.reverse]
      | c :: r => loSplitAux fuel (c :: acc) r

/-- Split a tier-b block into pieces. -/
def loSplitPieces (m : List Char) : List (List Char) :=
  loSplitAux m.length [] m

/-- Bloom-verb alternation of tier b, matched case-insensitively with a
word boundary after the verb. -/
def loVerbsB : List String :=
  ["identify", "explain", "describe", "demonstrate", "apply", "discuss",
   "use", "analyse", "analyze", "construct", "create", "differentiate",
   "outline", "state", "classify", "compare"]

/-- `re.search(r"^(identify|...)\b", line, re.I)`: some verb is a
case-insensitive head literal whose following character (if any) is not a
word character. -/
def loVerbStartCI (line : List Char) : Bool :=
  loVerbsB.any fun v =>
    match dropLitCI v.toList line with
    | some r => !(r.head?.any pyWord)
    | none => false

/-- Boilerplate filter of tier b. -/
def loBoilerB (line : List Char) : Bool :=
  containsCI "suggested learning" line ||
  containsCI "core competencies" line ||
  containsCI "key inquiry" line

/-- The `captured` list of tier b: every piece of every block, cleaned and
filtered. -/
def loTierBCaptured (blocks : List (List Char)) : List String :=
  (blocks.map fun block =>
    (loSplitPieces block).filterMap fun part =>
      let line := stripSet [' ', '.', ':', '-'] (collapseWs part)
      if line.length < 10 || line.length > 220 then none
      else if loBoilerB line then none
      else if loVerbStartCI line then some (String.mk line)
      else none).flatten

/-- `re.sub(r"^\d+\.\s*", "", line)` of tier c. -/
def loNumDotStrip (t : List Char) : List Char :=
  let (d, r) := takeDigits t
  if d.isEmpty then t
  else
    match r with
    | '.' :: r2 => dropWsStar r2
    | _ => t

/-- Bloom-verb alternation of tier c, matched case-sensitively. -/
def loVerbsC : List String :=
  ["Identify", "Explain", "Describe", "Demonstrate", "Apply", "Discuss",
   "Use", "Analyse", "Analyze", "Construct", "Create", "Differentiate"]

/-- `re.match(r"^(Identify|...)\b", line)` (no IGNORECASE flag). -/
def loVerbStartCS (line : List Char) : Bool :=
  loVerbsC.any fun v =>
    v.toList.isPrefixOf line && !((line.drop v.length).head?.any pyWord)

/-- Boilerplate filter of tier c. -/
def loBoilerC (line : List Char) : Bool :=
  containsCI "table of contents" line ||
  containsCI "summary of strands" line ||
  containsCI "lesson allocation" line ||
  containsCI "general learning outcomes" line

/-- Tier c of `extract_learning_outcomes`: free-standing lines starting
with an exact-case Bloom verb. -/
def loTierC (lines : List (List Char)) : List String :=
  let candidates := lines.filterMap fun line0 =>
    let line := stripWs (loNumDotStrip line0)
    if line.length < 20 || line.length > 220 then none
    else if loBoilerC line then none
    else if loVerbStartCS line then some (String.mk line)
    else none
  (dedupByKey strLower candidates).take 30

/-- `extract_learning_outcomes(text, lines)`: tier a (the labelled block)
wins when non-empty; otherwise tier b (the `By the end ...:` blocks) when
it captures anything; otherwise tier c. -/
def extract_learning_outcomes (text : String) (lines : List String) :
    List String :=
  let from_heading := extract_block_items text.toList
  if !from_heading.isEmpty then from_heading
  else
    let blocks := byEndFindAll text.toList.length text.toList
    let captured := loTierBCaptured blocks
    if !blocks.isEmpty && !captured.isEmpty then
      (dedupByKey strLower captured).take 30
    else loTierC (lines.map String.toList)

/-! ## cbc_parser.py — page filtering and `parse_pdf` -/

/-- Boilerplate patterns of `is_relevant_page`. -/
def pageBoiler : List String :=
  ["table of contents", "contents", "acknowledgements", "introduction",
   "disclaimer"]

/-- Curriculum keywords of `is_relevant_page`. -/
def curriculumKeywords : List String :=
  ["strand", "sub strand", "substrand", "learning outcome", "key inquiry",
   "core competency", "value", "suggested learning", "assessment",
   "specific learning outcome", "competencies"]

/-- `is_relevant_page(page_text)`. -/
def is_relevant_page (page_text : String) : Bool :=
  let t := page_text.toList
  let low := lcase t
  if pageBoiler.any (fun w => containsSeq w.toList low) then false
  else if (stripWs t).length < 100 then false
  else if t.count '\n' < 3 then false
  else curriculumKeywords.any (fun w => containsSeq w.toList low)

/-- `extract_relevant_pages(doc)`: normalize pages 12 onwards (indices 11
and up) and keep the non-blank ones. -/
def extract_relevant_pages (doc : List String) : List String :=
  (doc.drop 11).filterMap fun p =>
    let n := normalize_text p
    if (stripWs n.toList).isEmpty then none else some n

/-- The page-selection step of `parse_pdf`: the relevant pages, or the
normalized text of all pages when no page was selected. -/
def parse_pdf_pages (doc : List String) : List String :=
  let rp := extract_relevant_pages doc
  if rp.isEmpty then doc.map normalize_text else rp

/-! ## Python-call models for `None` arguments (claim C5)

Python is dynamically typed: the extractors annotate their parameters but
only `extract_suggested_learning_experiences` guards with `isinstance`.
The wrappers below model calling each function with `None` in place of a
string/list argument: `None.replace(...)` raises `AttributeError`, and
`re.findall(..., None)` / iterating `None` raise `TypeError`.
-/

/-- Calling `normalize_text(text)`: `None.replace` raises. -/
def normalize_text_py : Option String → Except String String
  | none => Except.error "AttributeError"
  | some s => Except.ok (normalize_text s)

/-- Calling `extract_learning_outcomes(text, lines)`: `re.search` on
`None` (inside `extract_block_items`) and iterating `None` raise. -/
def extract_learning_outcomes_py :
    Option String → Option (List String) → Except String (List String)
  | some t, some ls => Except.ok (extract_learning_outcomes t ls)
  | _, _ => Except.error "TypeError"

/-- Calling `extract_question_lines(lines, full_text)`: `re.findall` on
`None` and iterating `None` raise. -/
def extract_question_lines_py :
    Option (List String) → Option String → Except String (List String)
  | some ls, some t => Except.ok (extract_question_lines ls t)
  | _, _ => Except.error "TypeError"

/-- Calling `extract_suggested_learning_experiences(text)`: the
`isinstance(text, str)` guard returns `[]` for `None`. -/
def extract_suggested_learning_experiences_py :
    Option String → Except String (List String)
  | none => Except.ok []
  | some t => Except.ok (extract_suggested_learning_experiences t)

/-- Calling `extract_competencies(lines)`: iterating `None` raises. -/
def extract_competencies_py :
    Option (List String) → Except String (List String)
  | none => Except.error "TypeError"
  | some ls => Except.ok (extract_competencies ls)

/-- Calling `extract_values(lines)`: iterating `None` raises. -/
def extract_values_py :
    Option (List String) → Except String (List String)
  | none => Except.error "TypeError"
  | some ls => Except.ok (extract_values ls)

/-! ## Claim-side definitions and concrete sample data -/

/-- The cleaned text after stripping a recognised head pattern, as the
classifier computes it: `re.sub(pattern, '', text).strip()` leaves the
text unchanged when the pattern does not match. -/
def cleanedAfter (f : List Char → Option (List Char)) (t : List Char) :
    List Char :=
  stripWs ((f t).getD t)

/-- Claim C10's characterisation of the dropped classifier items, written
from the claim: items that are `None`, not strings, or shorter than 4
characters after stripping; and link / PCI / values items whose text
becomes empty after the recognised head pattern is stripped. -/
def claimDropB : PyVal → Bool
  | PyVal.pyNone => true
  | PyVal.pyOther => true
  | PyVal.pyStr s =>
    let text := stripWs s.toList
    if text.length < 4 then true
    else
      (linkRuleMatch text && (cleanedAfter linkRuleStrip text).isEmpty) ||
      (pertMatch text && (cleanedAfter pertStrip text).isEmpty) ||
      (valuesKeyMatch text && (cleanedAfter valuesStrip text).isEmpty)

/-- An input text whose specific-learning-outcomes block holds 31 distinct
items (used against the claimed cap of 30 for the learning-outcomes
extractor). -/
def c2text : String :=
  "Specific learning outcomes:\nnote item aa\nnote item ab\nnote item ac\nnote item ad\nnote item ae\nnote item af\nnote item ag\nnote item ah\nnote item ai\nnote item aj\nnote item ak\nnote item al\nnote item am\nnote item an\nnote item ao\nnote item ap\nnote item aq\nnote item ar\nnote item as\nnote item at\nnote item au\nnote item av\nnote item aw\nnote item ax\nnote item ay\nnote item az\nnote item ba\nnote item bb\nnote item bc\nnote item bd\nnote item be"

/-- The record of claim C3's scenario: strand set, sub-strand empty, 2
learning outcomes, 0 inquiry questions, 6 experiences, 3 competencies, 0
values. -/
def c3record : CurriculumData :=
  { strand := some "Algebra"
    substrand := some ""
    learning_outcomes := some ["o1", "o2"]
    key_inquiry_questions := some []
    suggested_learning_experiences :=
      some ["e1", "e2", "e3", "e4", "e5", "e6"]
    core_competencies := some ["c1", "c2", "c3"]
    values := some [] }

/-- A text whose tier-a learning-outcomes block is non-empty (witness
input for the first-tier-wins theorem). -/
def c6text : String :=
  "Specific learning outcomes:\nnote item aa"

/-- The input text of claim C7's scenario. -/
def c7text : String :=
  "Strand: Numbers\nSub-strand: Fractions\nKey Inquiry Questions: What is a fraction\nSuggested Learning Experiences: Learners are guided to discuss fractions in groups"

/-- Sample curriculum data for the upsert round-trip witness. -/
def c9data : CurriculumData :=
  { strand := some "1.1 Numbers"
    substrand := none
    learning_outcomes := some ["a", "b"]
    key_inquiry_questions := some []
    suggested_learning_experiences := some ["x"]
    core_competencies := none
    values := some ["respect"] }

/-- The row stored by the upsert of `c9data` into an empty table. -/
def c9row : StoredRow :=
  data_to_store "Maths" "Grade 4" c9data "auto_extracted"

/-! ## Helper lemmas -/

theorem take_length_le {α : Type} (n : Nat) (l : List α) :
    (l.take n).length ≤ n := by
  simp [List.length_take]

theorem all_take {α : Type} {p : α → Bool} {l : List α}
    (h : l.all p = true) (n : Nat) : (l.take n).all p = true := by
  rw [List.all_eq_true] at *
  intro x hx
  exact h x (List.mem_of_mem_take hx)

theorem dedupFirstAux_sublist (l : List String) :
    ∀ seen, (dedupFirstAux seen l).Sublist l := by
  induction l with
  | nil => intro seen; simp [dedupFirstAux]
  | cons x xs ih =>
    intro seen
    by_cases hx : x ∈ seen
    · rw [dedupFirstAux, if_pos hx]
      exact (ih seen).cons x
    · rw [dedupFirstAux, if_neg hx]
      exact (ih (x :: seen)).cons₂ x

theorem mem_dedupFirstAux (x : String) (l : List String) :
    ∀ seen, x ∈ dedupFirstAux seen l → x ∉ seen := by
  induction l with
  | nil => intro seen h; simp [dedupFirstAux] at h
  | cons y ys ih =>
    intro seen h
    by_cases hy : y ∈ seen
    · rw [dedupFirstAux, if_pos hy] at h
      exact ih seen h
    · rw [dedupFirstAux, if_neg hy] at h
      rcases List.mem_cons.mp h with rfl | h2
      · exact hy
      · intro hx
        exact ih (y :: seen) h2 (List.mem_cons_of_mem _ hx)

theorem dedupFirstAux_nodup (l : List String) :
    ∀ seen, (dedupFirstAux seen l).Nodup := by
  induction l with
  | nil => intro seen; simp [dedupFirstAux]
  | cons y ys ih =>
    intro seen
    by_cases hy : y ∈ seen
    · rw [dedupFirstAux, if_pos hy]
      exact ih seen
    · rw [dedupFirstAux, if_neg hy]
      refine List.nodup_cons.mpr ⟨?_, ih (y :: seen)⟩
      intro hmem
      exact mem_dedupFirstAux y ys (y :: seen) hmem (List.mem_cons_self y seen)

theorem dedupFirst_nodup (l : List String) : (dedupFirst l).Nodup :=
  dedupFirstAux_nodup l []

theorem dedupFirst_sublist (l : List String) : (dedupFirst l).Sublist l :=
  dedupFirstAux_sublist l []

theorem extract_block_items_le (t : List Char) :
    (extract_block_items t).length ≤ 40 := by
  unfold extract_block_items
  split
  · simp
  · exact take_length_le 40 _

/-! ## Claim C1 -/

/-- Claim C1 (counterexample): the classifier deduplicates with
`dict.fromkeys`, which is exact-string, so two case-insensitively equal
competencies both survive in one list; and the string `Unity` lands in the
links list (stripped from a `Link to other subjects:` item) and in the
values list (value keyword), so the four lists are not pairwise disjoint,
even case-insensitively. -/
theorem c1_counterexample :
    ((classify_competency_items
        [PyVal.pyStr "Critical thinking", PyVal.pyStr "CRITICAL THINKING"]).1 =
      ["Critical thinking", "CRITICAL THINKING"] ∧
     strLower "Critical thinking" = strLower "CRITICAL THINKING") ∧
    ((classify_competency_items
        [PyVal.pyStr "Link to other subjects: Unity", PyVal.pyStr "Unity"]).2.1 =
      ["Unity"] ∧
     (classify_competency_items
        [PyVal.pyStr "Link to other subjects: Unity", PyVal.pyStr "Unity"]).2.2.1 =
      ["Unity"]) := by
  decide

/-- Claim C1 (amended): each of the four output lists of
`_classify_competency_items` is deduplicated by exact string equality,
preserving first-seen order (each deduplicated list is a sublist of its
raw pre-deduplication list and contains no two equal items); the four
lists need not be disjoint, and case-insensitively equal items may
survive together. -/
theorem c1_classifier_dedup_exact (items : List PyVal) :
    ((classify_competency_items items).1.Nodup ∧
      (classify_competency_items items).1.Sublist (rawComps items)) ∧
    ((classify_competency_items items).2.1.Nodup ∧
      (classify_competency_items items).2.1.Sublist (rawVals items)) ∧
    ((classify_competency_items items).2.2.1.Nodup ∧
      (classify_competency_items items).2.2.1.Sublist (rawLinks items)) ∧
    ((classify_competency_items items).2.2.2.Nodup ∧
      (classify_competency_items items).2.2.2.Sublist (rawPcis items)) := by
  refine ⟨⟨?_, ?_⟩, ⟨?_, ?_⟩, ⟨?_, ?_⟩, ⟨?_, ?_⟩⟩ <;>
    first
      | exact dedupFirst_nodup _
      | exact dedupFirst_sublist _

/-! ## Claim C2 -/

/-- Claim C2 (counterexample): a specific-learning-outcomes block with 31
distinct items is returned whole by `extract_learning_outcomes` (tier a
passes `extract_block_items` through under its cap of 40), exceeding the
claimed cap of 30. -/
theorem c2_counterexample :
    30 < (extract_learning_outcomes c2text []).length := by
  decide

/-- Claim C2 (amended): the key-inquiry-questions and suggested-learning-
experiences extractors return at most 15 items, the competencies and
values extractors at most 20 each, and the learning-outcomes extractor at
most 40 (its labelled-block tier is capped at 40 by `extract_block_items`;
its other two tiers are capped at 30). -/
theorem c2_caps (text : String) (lines : List String) :
    (extract_learning_outcomes text lines).length ≤ 40 ∧
    (extract_question_lines lines text).length ≤ 15 ∧
    (extract_suggested_learning_experiences text).length ≤ 15 ∧
    (extract_competencies lines).length ≤ 20 ∧
    (extract_values lines).length ≤ 20 := by
  refine ⟨?_, ?_, ?_, ?_, ?_⟩
  · simp only [extract_learning_outcomes]
    split
    · exact extract_block_items_le _
    · split
      · exact le_trans (take_length_le 30 _) (by omega)
      · unfold loTierC
        exact le_trans (take_length_le 30 _) (by omega)
  · exact take_length_le 15 _
  · exact take_length_le 15 _
  · exact take_length_le 20 _
  · exact take_length_le 20 _

/-! ## Claim C3 -/

/-- Claim C3 (confirmed): `calculate_completeness` equals the number of
passed checks (of the seven claimed boolean checks) divided by 7, times
100; and the claimed scenario record (strand set, sub-strand empty, 2
outcomes, 0 questions, 6 experiences, 3 competencies, 0 values) scores
400/7 ≈ 57.1. -/
theorem c3_completeness_formula :
    (∀ d : CurriculumData,
      calculate_completeness d = (specCompletenessPassed d : ℚ) / 7 * 100) ∧
    calculate_completeness c3record = 400 / 7 := by
  constructor
  · intro d
    have hcount : (completenessChecks d).countP id = specCompletenessPassed d := by
      simp only [completenessChecks, specCompletenessPassed, checkStr,
        checkListGe, List.countP_cons, List.countP_nil, id_eq,
        decide_eq_true_eq]
      ring
    have hlen : (completenessChecks d).length = 7 := by
      simp [completenessChecks]
    simp only [calculate_completeness, hcount, hlen]
    norm_num
  · have h4 : (completenessChecks c3record).countP id = 4 := by decide
    have h7 : (completenessChecks c3record).length = 7 := by decide
    simp only [calculate_completeness, h4, h7]
    norm_num

/-! ## Claim C4 -/

/-- Claim C4 (counterexample): a line already ending in two question marks
passes through `extract_question_lines` unchanged (the normalisation only
appends `?` when the candidate does not already end with one), so the
second-to-last character of an output item can be `?`. -/
theorem c4_counterexample :
    extract_question_lines ["What is this??"] "" = ["What is this??"] ∧
    "What is this??".toList.getLast? = some '?' ∧
    "What is this??".toList.dropLast.getLast? = some '?' := by
  decide

theorem kiqFinalizeAux_ends (cands : List (List Char)) :
    ∀ seen, (kiqFinalizeAux seen cands).all
      (fun q => q.toList.getLast? == some '?') = true := by
  induction cands with
  | nil => intro seen; rfl
  | cons q qs ih =>
    intro seen
    rw [kiqFinalizeAux]
    set qc0 := stripWs (collapseWs q) with hqc0
    set qc := if qc0.getLast? = some '?' then qc0 else qc0 ++ ['?'] with hqc
    split
    · exact ih _
    · rw [List.all_cons, Bool.and_eq_true]
      refine ⟨?_, ih _⟩
      have hlast : qc.getLast? = some '?' := by
        rw [hqc]
        split
        · assumption
        · exact List.getLast?_concat _
      simp only [String.toList]
      exact beq_iff_eq.mpr hlast

/-- Claim C4 (amended): every item returned by `extract_question_lines`
ends with a question mark: its last character is `?` (possibly preceded by
another `?`; the normalisation appends a `?` only when the candidate does
not already end with one). -/
theorem c4_ends_with_question_mark (lines : List String) (text : String) :
    (extract_question_lines lines text).all
      (fun q => q.toList.getLast? == some '?') = true := by
  unfold extract_question_lines
  exact all_take (kiqFinalizeAux_ends _ []) 15

/-! ## Claim C5 -/

/-- Claim C5 (counterexample): calling the text normalizer with `None`
does not return an empty string: `None.replace` raises `AttributeError`
(modelled by the `Except.error` result), and likewise the learning-
outcomes, question, competencies and values extractors raise `TypeError`
on `None`. -/
theorem c5_counterexample :
    normalize_text_py none = Except.error "AttributeError" ∧
    normalize_text_py none ≠ Except.ok "" ∧
    extract_learning_outcomes_py none none = Except.error "TypeError" ∧
    extract_question_lines_py none none = Except.error "TypeError" ∧
    extract_competencies_py none = Except.error "TypeError" ∧
    extract_values_py none = Except.error "TypeError" := by
  refine ⟨rfl, ?_, rfl, rfl, rfl, rfl⟩
  simp [normalize_text_py]

/-- Claim C5 (amended): on empty input (empty string or empty line list)
the text normalizer and every field extractor return an empty result
without raising; `None` input is tolerated only by the suggested-learning-
experiences extractor, whose `isinstance` guard returns the empty list
(the others raise, per the counterexample). -/
theorem c5_empty_inputs :
    normalize_text "" = "" ∧
    extract_learning_outcomes "" [] = [] ∧
    extract_question_lines [] "" = [] ∧
    extract_suggested_learning_experiences "" = [] ∧
    extract_competencies [] = [] ∧
    extract_values [] = [] ∧
    extract_strand_substrand [] = ("", "") ∧
    extract_suggested_learning_experiences_py none = Except.ok [] ∧
    extract_suggested_learning_experiences_py (some "") = Except.ok [] := by
  refine ⟨rfl, rfl, rfl, rfl, rfl, rfl, rfl, rfl, rfl⟩

/-! ## Claim C6 -/

/-- Claim C6 (counterexample): the key-inquiry-questions extractor pools
its patterns instead of stopping at the first non-empty tier: with one
line matched by pattern 2 and a sentence matched only by pattern 3, both
reach the output, so the output is not the pattern-2 result alone. -/
theorem c6_counterexample :
    kiqPattern2 ["Why is water wet here?".toList] =
      ["Why is water wet here?".toList] ∧
    kiqPattern3 "How do plants grow well?".toList =
      ["How do plants grow well?".toList] ∧
    extract_question_lines ["Why is water wet here?"] "How do plants grow well?" =
      ["Why is water wet here?", "How do plants grow well?"] ∧
    extract_question_lines ["Why is water wet here?"] "How do plants grow well?" ≠
      ["Why is water wet here?"] := by
  decide

/-- Claim C6 (amended): first-non-empty-tier-wins holds for the learning-
outcomes extractor: whenever the labelled-block tier (tier a,
`extract_block_items`) is non-empty, `extract_learning_outcomes` returns
exactly that tier's result and the later tiers contribute nothing.  The
key-inquiry-questions and suggested-learning-experiences extractors
instead pool all their patterns' candidates (per the counterexample). -/
theorem c6_first_tier_wins (text : String) (lines : List String)
    (h : extract_block_items text.toList ≠ []) :
    extract_learning_outcomes text lines = extract_block_items text.toList := by
  have h2 : extract_block_items text.data ≠ [] := h
  simp only [extract_learning_outcomes]
  have hE : (extract_block_items text.data).isEmpty = false := by
    simp [List.isEmpty_iff, h2]
  simp [hE]

/-- Witness for `c6_first_tier_wins` at a concrete input. -/
theorem c6_witness :
    extract_block_items c6text.toList ≠ [] ∧
    extract_learning_outcomes c6text ["zed"] = extract_block_items c6text.toList :=
  ⟨by decide, c6_first_tier_wins c6text ["zed"] (by decide)⟩

/-! ## Claim C7 -/

/-- Claim C7 (counterexample): on the claimed scenario input the key-
inquiry-questions extractor returns the empty list, not
`["What is a fraction?"]`: the question lacks a `?` in the source text,
and every pattern of the extractor requires a literal `?` (the trailing
`?` is only appended to candidates that already contain one). -/
theorem c7_counterexample :
    extract_question_lines (clean_lines c7text) c7text = [] ∧
    (["What is a fraction?"] : List String) ≠ [] := by
  decide

/-- Claim C7 (amended): on the scenario input the strand/sub-strand
extractor returns strand `Numbers` and sub-strand `Fractions`, and the
key-inquiry-questions extractor returns the empty list. -/
theorem c7_amended_scenario :
    extract_strand_substrand (clean_lines c7text) = ("Numbers", "Fractions") ∧
    extract_question_lines (clean_lines c7text) c7text = [] := by
  decide

/-! ## Claim C8 -/

/-- Claim C8 (confirmed): for a parsed document with at least one page, if
the page-selection step chooses zero pages then `parse_pdf` falls back to
the normalized text of all pages, and the page set handed to field
extraction is never empty. -/
theorem c8_page_fallback (doc : List String) (h : doc ≠ []) :
    (extract_relevant_pages doc = [] →
      parse_pdf_pages doc = doc.map normalize_text) ∧
    parse_pdf_pages doc ≠ [] := by
  constructor
  · intro hrp
    simp [parse_pdf_pages, hrp]
  · by_cases he : extract_relevant_pages doc = []
    · simp only [parse_pdf_pages, he, List.isEmpty_nil, if_true]
      simp [h]
    · simp only [parse_pdf_pages]
      rw [if_neg]
      · exact he
      · simp [List.isEmpty_iff, he]

/-- Witness for `c8_page_fallback` at a concrete one-page document. -/
theorem c8_witness :
    (["x"] : List String) ≠ [] ∧
    ((extract_relevant_pages ["x"] = [] →
      parse_pdf_pages ["x"] = ["x"].map normalize_text) ∧
     parse_pdf_pages ["x"] ≠ []) :=
  ⟨by decide, c8_page_fallback ["x"] (by decide)⟩

/-! ## Claim C9 -/

/-- Claim C9 (confirmed): after any `insert_curriculum` call — fresh
insert or overwrite of an existing (subject, grade) row — the (subject,
grade) row's stored completeness score equals `calculate_completeness`
recomputed from the row's stored field values as decoded by
`parse_curriculum_row`. -/
theorem c9_score_roundtrip (subject grade : String) (data : CurriculumData)
    (status : String) (db : List StoredRow) (row : StoredRow)
    (hmem : row ∈ insert_curriculum subject grade data status db)
    (hs : row.subject = subject) (hg : row.grade = grade) :
    calculate_completeness (parse_curriculum_row row) =
      row.completeness_score := by
  simp only [insert_curriculum] at hmem
  by_cases hany :
      db.any (fun r => r.subject == subject && r.grade == grade) = true
  · rw [if_pos hany] at hmem
    rcases List.mem_map.mp hmem with ⟨r, hr, hrow⟩
    by_cases hk : (r.subject == subject && r.grade == grade) = true
    · rw [if_pos hk] at hrow
      rw [← hrow]
      rfl
    · rw [if_neg hk] at hrow
      rw [← hrow] at hs hg
      simp [hs, hg] at hk
  · rw [if_neg hany] at hmem
    rcases List.mem_append.mp hmem with hin | hone
    · rw [List.any_eq_true] at hany
      exact absurd ⟨row, hin, by simp [hs, hg]⟩ hany
    · rw [List.mem_singleton] at hone
      rw [hone]
      rfl

/-- Witness for `c9_score_roundtrip`: upsert of a concrete record into an
empty table. -/
theorem c9_witness :
    c9row ∈ insert_curriculum "Maths" "Grade 4" c9data "auto_extracted" [] ∧
    calculate_completeness (parse_curriculum_row c9row) =
      c9row.completeness_score := by
  have hmem :
      c9row ∈ insert_curriculum "Maths" "Grade 4" c9data "auto_extracted" [] := by
    simp [insert_curriculum, c9row]
  exact ⟨hmem,
    c9_score_roundtrip "Maths" "Grade 4" c9data "auto_extracted" [] c9row
      hmem rfl rfl⟩

/-! ## Claim C10 — supporting lemmas

The partition theorem needs that the three prefix-stripping rules are
mutually exclusive (their head letters differ) and that an item fully
consumed by the PCI or values head pattern cannot contain the substring
`link to other` (none of the consumed characters lower-cases to `k`).
-/

theorem dropLitCI_decomp :
    ∀ (lit t r : List Char), dropLitCI lit t = some r →
      ∃ pre, t = pre ++ r ∧ pre.map Char.toLower = lit := by
  intro lit
  induction lit with
  | nil =>
    intro t r h
    rw [dropLitCI] at h
    exact ⟨[], by simpa using h, rfl⟩
  | cons l ls ih =>
    intro t r h
    match t with
    | [] => simp [dropLitCI] at h
    | c :: cs =>
      rw [dropLitCI] at h
      by_cases hc : c.toLower = l
      · rw [if_pos hc] at h
        rcases ih cs r h with ⟨pre, hpre, hmap⟩
        exact ⟨c :: pre, by simp [hpre], by simp [hmap, hc]⟩
      · rw [if_neg hc] at h
        exact absurd h (by simp)

theorem dropLitCI_head {l : Char} {ls t r : List Char}
    (h : dropLitCI (l :: ls) t = some r) :
    ∃ c cs, t = c :: cs ∧ c.toLower = l := by
  rcases dropLitCI_decomp (l :: ls) t r h with ⟨pre, hpre, hmap⟩
  match pre, hmap with
  | c :: pre2, hmap =>
    refine ⟨c, pre2 ++ r, by simp [hpre], ?_⟩
    simpa using congrArg (fun x => x.headD 'a') hmap

theorem dropLitCI_noK {lit t r : List Char} (hk : 'k' ∉ lit)
    (h : dropLitCI lit t = some r) :
    ∃ pre, t = pre ++ r ∧ ∀ c ∈ pre, c.toLower ≠ 'k' := by
  rcases dropLitCI_decomp lit t r h with ⟨pre, hpre, hmap⟩
  refine ⟨pre, hpre, fun c hc hck => hk ?_⟩
  rw [← hmap]
  exact List.mem_map.mpr ⟨c, hc, hck⟩

theorem pyWs_cases {c : Char} (h : pyWs c = true) :
    c = ' ' ∨ c = '\t' ∨ c = '\n' ∨ c = '\x0d' ∨ c = '\x0b' ∨ c = '\x0c' := by
  have h2 := h
  simp only [pyWs, Bool.or_eq_true, beq_iff_eq] at h2
  tauto

theorem pyWs_toLower_ne_k {c : Char} (h : pyWs c = true) : c.toLower ≠ 'k' := by
  rcases pyWs_cases h with rfl | rfl | rfl | rfl | rfl | rfl <;> decide

theorem dropWsStar_noK (t : List Char) :
    ∃ pre, t = pre ++ dropWsStar t ∧ ∀ c ∈ pre, c.toLower ≠ 'k' := by
  refine ⟨t.takeWhile pyWs, ?_, fun c hc => ?_⟩
  · exact (List.takeWhile_append_dropWhile pyWs t).symm
  · exact pyWs_toLower_ne_k (List.mem_takeWhile_imp hc)

theorem dropWs1_noK {t r : List Char} (h : dropWs1 t = some r) :
    ∃ pre, t = pre ++ r ∧ ∀ c ∈ pre, c.toLower ≠ 'k' := by
  match t with
  | [] => simp [dropWs1] at h
  | c :: cs =>
    rw [dropWs1] at h
    by_cases hc : pyWs c = true
    · rw [if_pos hc] at h
      refine ⟨c :: cs.takeWhile pyWs, ?_, ?_⟩
      · have := (List.takeWhile_append_dropWhile (p := pyWs) (l := cs))
        simp only [Option.some.injEq] at h
        rw [← h]
        simp [this]
      · intro x hx
        rcases List.mem_cons.mp hx with rfl | hx2
        · exact pyWs_toLower_ne_k hc
        · exact pyWs_toLower_ne_k (List.mem_takeWhile_imp hx2)
    · rw [if_neg hc] at h
      exact absurd h (by simp)

theorem optLitCI_noK {l : Char} (hl : l ≠ 'k') (t : List Char) :
    ∃ pre, t = pre ++ optLitCI l t ∧ ∀ c ∈ pre, c.toLower ≠ 'k' := by
  match t with
  | [] => exact ⟨[], rfl, by simp⟩
  | c :: cs =>
    rw [optLitCI]
    by_cases hc : c.toLower = l
    · rw [if_pos hc]
      exact ⟨[c], rfl, by simp [hc, hl]⟩
    · rw [if_neg hc]
      exact ⟨[], rfl, by simp⟩

theorem noK_trans {t m r : List Char}
    (h1 : ∃ pre, t = pre ++ m ∧ ∀ c ∈ pre, c.toLower ≠ 'k')
    (h2 : ∃ pre, m = pre ++ r ∧ ∀ c ∈ pre, c.toLower ≠ 'k') :
    ∃ pre, t = pre ++ r ∧ ∀ c ∈ pre, c.toLower ≠ 'k' := by
  rcases h1 with ⟨p1, hp1, hk1⟩
  rcases h2 with ⟨p2, hp2, hk2⟩
  refine ⟨p1 ++ p2, by rw [hp1, hp2, List.append_assoc], fun c hc => ?_⟩
  rcases List.mem_append.mp hc with h | h
  · exact hk1 c h
  · exact hk2 c h

theorem dropWhile_head_not {α : Type} (p : α → Bool) :
    ∀ (l : List α) (c : α) (rest : List α),
      l.dropWhile p = c :: rest → p c = false := by
  intro l
  induction l with
  | nil => intro c rest h; simp [List.dropWhile] at h
  | cons a as ih =>
    intro c rest h
    rw [List.dropWhile_cons] at h
    by_cases ha : p a = true
    · rw [if_pos ha] at h
      exact ih c rest h
    · rw [if_neg ha] at h
      obtain ⟨rfl, -⟩ := List.cons.inj h
      exact Bool.eq_false_iff.mpr ha

theorem stripWs_eq_nil_iff (l : List Char) :
    stripWs l = [] ↔ ∀ c ∈ l, pyWs c = true := by
  unfold stripWs
  rw [List.reverse_eq_nil_iff, List.dropWhile_eq_nil_iff]
  constructor
  · intro h c hc
    rcases List.mem_append.mp
        ((List.takeWhile_append_dropWhile pyWs l) ▸ hc) with h1 | h2
    · exact List.mem_takeWhile_imp h1
    · exact h c (List.mem_reverse.mpr h2)
  · intro h c hc
    have : c ∈ l.dropWhile pyWs := List.mem_reverse.mp hc
    exact h c ((List.dropWhile_sublist (l := l) pyWs).subset this)

theorem stripWs_is_prefix (l : List Char) :
    ∃ t, (l.dropWhile pyWs) = stripWs l ++ t := by
  unfold stripWs
  have hsuf : ((l.dropWhile pyWs).reverse.dropWhile pyWs).Sublist
      (l.dropWhile pyWs).reverse := List.dropWhile_sublist pyWs
  have h2 : ((l.dropWhile pyWs).reverse.dropWhile pyWs) <:+
      (l.dropWhile pyWs).reverse := List.dropWhile_suffix pyWs
  rcases h2 with ⟨t, ht⟩
  refine ⟨t.reverse, ?_⟩
  have := congrArg List.reverse ht
  simpa using this.symm

theorem stripWs_all_ws_eq_nil (l : List Char)
    (h : ∀ c ∈ stripWs l, pyWs c = true) : stripWs l = [] := by
  rcases hA : l.dropWhile pyWs with _ | ⟨c, rest⟩
  · have : stripWs l = [] := by
      unfold stripWs
      rw [hA]
      rfl
    exact this
  · have hc : pyWs c = false := dropWhile_head_not pyWs l c rest hA
    rcases stripWs_is_prefix l with ⟨t, ht⟩
    rcases hS : stripWs l with _ | ⟨d, ds⟩
    · rfl
    · rw [hS, hA] at ht
      obtain ⟨heq, -⟩ := List.cons.inj ht
      have hd := h d (by rw [hS]; exact List.mem_cons_self d ds)
      rw [← heq] at hd
      rw [hd] at hc
      cases hc

theorem containsSeq_mem {n : List Char} :
    ∀ {l : List Char}, containsSeq n l = true → ∀ c ∈ n, c ∈ l := by
  intro l
  induction l with
  | nil =>
    intro h c hc
    rw [containsSeq] at h
    rw [List.isEmpty_iff.mp h] at hc
    simp at hc
  | cons a as ih =>
    intro h c hc
    rw [containsSeq, Bool.or_eq_true] at h
    rcases h with h | h
    · have hpre : n <+: (a :: as) := List.isPrefixOf_iff_prefix.mp h
      exact hpre.sublist.subset hc
    · exact List.mem_cons_of_mem a (ih h c hc)

theorem linkRuleMatch_head {t : List Char} (h : linkRuleMatch t = true) :
    ∃ c cs, t = c :: cs ∧ c.toLower = 'l' := by
  rw [linkRuleMatch] at h
  rcases hd : dropLitCI "link".toList t with - | r0
  · rw [hd] at h; cases h
  · exact dropLitCI_head (show dropLitCI ('l' :: "ink".toList) t = some r0 from hd)

theorem pertCore_head {t r : List Char} (h : pertCore t = some r) :
    ∃ c cs, t = c :: cs ∧ c.toLower = 'p' := by
  rw [pertCore] at h
  rcases hd : dropLitCI "pertinent".toList t with - | r0
  · rw [hd] at h; cases h
  · exact dropLitCI_head (show dropLitCI ('p' :: "ertinent".toList) t = some r0 from hd)

theorem pertMatch_head {t : List Char} (h : pertMatch t = true) :
    ∃ c cs, t = c :: cs ∧ c.toLower = 'p' := by
  rw [pertMatch] at h
  rcases hd : pertCore t with - | r
  · rw [hd] at h; cases h
  · exact pertCore_head hd

theorem pciStart_head {t : List Char} (h : pciStart t = true) :
    ∃ c cs, t = c :: cs ∧ c.toLower = 'p' := by
  rw [pciStart] at h
  rcases hd : dropLitCI "pci".toList t with - | r
  · rw [hd] at h; cases h
  · exact dropLitCI_head (show dropLitCI ('p' :: "ci".toList) t = some r from hd)

theorem valuesKeyMatch_head {t : List Char} (h : valuesKeyMatch t = true) :
    ∃ c cs, t = c :: cs ∧ c.toLower = 'v' := by
  rw [valuesKeyMatch] at h
  rcases hd : dropLitCI "value".toList t with - | r0
  · rw [hd] at h; cases h
  · exact dropLitCI_head (show dropLitCI ('v' :: "alue".toList) t = some r0 from hd)

theorem link_pert_excl {t : List Char} (h : linkRuleMatch t = true) :
    pertMatch t = false := by
  rcases hp : pertMatch t with - | -
  · rfl
  · rcases linkRuleMatch_head h with ⟨c, cs, rfl, hl⟩
    rcases pertMatch_head hp with ⟨c2, cs2, he, hp2⟩
    obtain ⟨rfl, -⟩ := List.cons.inj he
    rw [hl] at hp2
    cases hp2

theorem link_pci_excl {t : List Char} (h : linkRuleMatch t = true) :
    pciStart t = false := by
  rcases hp : pciStart t with - | -
  · rfl
  · rcases linkRuleMatch_head h with ⟨c, cs, rfl, hl⟩
    rcases pciStart_head hp with ⟨c2, cs2, he, hp2⟩
    obtain ⟨rfl, -⟩ := List.cons.inj he
    rw [hl] at hp2
    cases hp2

theorem link_vkm_excl {t : List Char} (h : linkRuleMatch t = true) :
    valuesKeyMatch t = false := by
  rcases hp : valuesKeyMatch t with - | -
  · rfl
  · rcases linkRuleMatch_head h with ⟨c, cs, rfl, hl⟩
    rcases valuesKeyMatch_head hp with ⟨c2, cs2, he, hp2⟩
    obtain ⟨rfl, -⟩ := List.cons.inj he
    rw [hl] at hp2
    cases hp2

theorem pert_vkm_excl {t : List Char} (h : pertMatch t = true) :
    valuesKeyMatch t = false := by
  rcases hp : valuesKeyMatch t with - | -
  · rfl
  · rcases pertMatch_head h with ⟨c, cs, rfl, hl⟩
    rcases valuesKeyMatch_head hp with ⟨c2, cs2, he, hp2⟩
    obtain ⟨rfl, -⟩ := List.cons.inj he
    rw [hl] at hp2
    cases hp2

theorem pci_vkm_excl {t : List Char} (h : pciStart t = true) :
    valuesKeyMatch t = false := by
  rcases hp : valuesKeyMatch t with - | -
  · rfl
  · rcases pciStart_head h with ⟨c, cs, rfl, hl⟩
    rcases valuesKeyMatch_head hp with ⟨c2, cs2, he, hp2⟩
    obtain ⟨rfl, -⟩ := List.cons.inj he
    rw [hl] at hp2
    cases hp2

theorem vkm_pert_excl {t : List Char} (h : valuesKeyMatch t = true) :
    pertMatch t = false := by
  rcases hp : pertMatch t with - | -
  · rfl
  · rw [pert_vkm_excl hp] at h
    cases h

theorem vkm_pci_excl {t : List Char} (h : valuesKeyMatch t = true) :
    pciStart t = false := by
  rcases hp : pciStart t with - | -
  · rfl
  · rw [pci_vkm_excl hp] at h
    cases h

theorem vkm_link_excl {t : List Char} (h : valuesKeyMatch t = true) :
    linkRuleMatch t = false := by
  rcases hp : linkRuleMatch t with - | -
  · rfl
  · rw [link_vkm_excl hp] at h
    cases h

theorem pert_link_excl {t : List Char} (h : pertMatch t = true) :
    linkRuleMatch t = false := by
  rcases hp : linkRuleMatch t with - | -
  · rfl
  · rw [link_pert_excl hp] at h
    cases h

theorem pertContPart_noK {r out : List Char} (h : pertContPart r = some out) :
    ∃ pre, r = pre ++ out ∧ ∀ c ∈ pre, c.toLower ≠ 'k' := by
  rw [pertContPart] at h
  rcases h1 : dropLitCI "contemporary".toList r with - | r2
  · rw [h1] at h; simp at h
  · rw [h1] at h; dsimp only at h
    rcases h2 : dropWs1 r2 with - | r3
    · rw [h2] at h; simp at h
    · rw [h2] at h; dsimp only at h
      exact noK_trans (dropLitCI_noK (by decide) h1)
        (noK_trans (dropWs1_noK h2) (dropLitCI_noK (by decide) h))

theorem pertCore_noK {t r : List Char} (h : pertCore t = some r) :
    ∃ pre, t = pre ++ r ∧ ∀ c ∈ pre, c.toLower ≠ 'k' := by
  rw [pertCore] at h
  rcases h1 : dropLitCI "pertinent".toList t with - | r0
  · rw [h1] at h; simp at h
  · rw [h1] at h; dsimp only at h
    rcases h2 : dropWs1 r0 with - | r1
    · rw [h2] at h; simp at h
    · rw [h2] at h; dsimp only at h
      have base := noK_trans
        (dropLitCI_noK (show 'k' ∉ "pertinent".toList by decide) h1)
        (dropWs1_noK h2)
      rcases h3 : dropLitCI "and".toList r1 with - | r1a
      · rw [h3] at h; dsimp only at h
        exact noK_trans base (pertContPart_noK h)
      · rw [h3] at h; dsimp only at h
        rcases h4 : dropWs1 r1a with - | r1b
        · rw [h4] at h; dsimp only at h
          exact noK_trans base (pertContPart_noK h)
        · rw [h4] at h; dsimp only at h
          rcases h5 : pertContPart r1b with - | rr
          · rw [h5] at h; dsimp only at h
            exact noK_trans base (pertContPart_noK h)
          · rw [h5] at h; dsimp only at h
            obtain rfl : rr = r := by simpa using h
            exact noK_trans base
              (noK_trans (dropLitCI_noK (by decide) h3)
                (noK_trans (dropWs1_noK h4) (pertContPart_noK h5)))

theorem pertParen_noK (r : List Char) :
    ∃ pre, r = pre ++ pertParen r ∧ ∀ c ∈ pre, c.toLower ≠ 'k' := by
  rcases r with - | ⟨c, r1⟩
  · exact ⟨[], rfl, by simp⟩
  · by_cases hc : c = '('
    · subst hc
      rcases hp : dropLitCI "pci".toList r1 with - | r2
      · refine ⟨[], ?_, by simp⟩
        rw [List.nil_append, pertParen, if_pos rfl, hp]
      · have hcomp := noK_trans
          (dropLitCI_noK (show 'k' ∉ "pci".toList by decide) hp)
          (noK_trans (optLitCI_noK (l := 's') (by decide) r2)
            (optLitCI_noK (l := ')') (by decide) (optLitCI 's' r2)))
        rcases hcomp with ⟨pre, hpre, hk⟩
        refine ⟨'(' :: pre, ?_, ?_⟩
        · rw [pertParen, if_pos rfl, hp]
          dsimp only
          simpa using hpre
        · intro x hx
          rcases List.mem_cons.mp hx with rfl | hx2
          · decide
          · exact hk x hx2
    · rcases hp : dropLitCI "pci".toList (c :: r1) with - | r2
      · refine ⟨[], ?_, by simp⟩
        rw [List.nil_append, pertParen, if_neg hc, hp]
      · have hcomp := noK_trans
          (dropLitCI_noK (show 'k' ∉ "pci".toList by decide) hp)
          (noK_trans (optLitCI_noK (l := 's') (by decide) r2)
            (optLitCI_noK (l := ')') (by decide) (optLitCI 's' r2)))
        rcases hcomp with ⟨pre, hpre, hk⟩
        refine ⟨pre, ?_, hk⟩
        rw [pertParen, if_neg hc, hp]
        exact hpre

theorem pertStrip_noK {t r : List Char} (h : pertStrip t = some r) :
    ∃ pre, t = pre ++ r ∧ ∀ c ∈ pre, c.toLower ≠ 'k' := by
  rw [pertStrip] at h
  rcases h1 : pertCore t with - | r0
  · rw [h1] at h; simp at h
  · rw [h1] at h; dsimp only at h
    obtain rfl :
        dropWsStar (optLitCI ':' (dropWsStar (pertParen (dropWsStar r0)))) = r := by
      simpa using h
    refine noK_trans (pertCore_noK h1) ?_
    refine noK_trans (dropWsStar_noK r0) ?_
    refine noK_trans (pertParen_noK (dropWsStar r0)) ?_
    refine noK_trans (dropWsStar_noK (pertParen (dropWsStar r0))) ?_
    refine noK_trans (optLitCI_noK (l := ':') (by decide) _) ?_
    exact dropWsStar_noK _

theorem valuesStrip_noK {t r : List Char} (h : valuesStrip t = some r) :
    ∃ pre, t = pre ++ r ∧ ∀ c ∈ pre, c.toLower ≠ 'k' := by
  rw [valuesStrip] at h
  rcases h1 : dropLitCI "value".toList t with - | r0
  · rw [h1] at h; simp at h
  · rw [h1] at h; dsimp only at h
    obtain rfl :
        dropWsStar (optLitCI ':' (dropWsStar (optLitCI 's' r0))) = r := by
      simpa using h
    refine noK_trans (dropLitCI_noK (show 'k' ∉ "value".toList by decide) h1) ?_
    refine noK_trans (optLitCI_noK (l := 's') (by decide) r0) ?_
    refine noK_trans (dropWsStar_noK (optLitCI 's' r0)) ?_
    refine noK_trans (optLitCI_noK (l := ':') (by decide) _) ?_
    exact dropWsStar_noK _

theorem no_k_of_decomp {T r : List Char}
    (hdec : ∃ pre, T = pre ++ r ∧ ∀ c ∈ pre, c.toLower ≠ 'k')
    (hws : ∀ c ∈ r, pyWs c = true) :
    ∀ c ∈ T, c.toLower ≠ 'k' := by
  rcases hdec with ⟨pre, hpre, hk⟩
  intro c hc
  rw [hpre] at hc
  rcases List.mem_append.mp hc with h | h
  · exact hk c h
  · exact pyWs_toLower_ne_k (hws c h)

theorem not_contains_link {T : List Char}
    (hnk : ∀ c ∈ T, c.toLower ≠ 'k') :
    containsSeq "link to other".toList (lcase T) = false ∧
    containsSeq "links to other".toList (lcase T) = false := by
  constructor <;>
  · rcases h : containsSeq _ (lcase T) with - | -
    · rfl
    · exfalso
      have hk := containsSeq_mem h 'k' (by decide)
      rcases List.mem_map.mp hk with ⟨c, hc, htl⟩
      exact hnk c hc htl

theorem pertStrip_of_match {T : List Char} (h : pertMatch T = true) :
    ∃ r, pertStrip T = some r := by
  rw [pertMatch, Option.isSome_iff_exists] at h
  rcases h with ⟨r0, h0⟩
  exact ⟨_, by rw [pertStrip, h0]⟩

theorem valuesStrip_of_match {T : List Char} (h : valuesKeyMatch T = true) :
    ∃ r, valuesStrip T = some r := by
  rw [valuesKeyMatch] at h
  rcases hd : dropLitCI "value".toList T with - | r0
  · rw [hd] at h; cases h
  · exact ⟨_, by rw [valuesStrip, hd]⟩

theorem pertStrip_none_of_not_match {T : List Char}
    (h : pertMatch T = false) : pertStrip T = none := by
  rw [pertMatch] at h
  rw [pertStrip]
  rcases hd : pertCore T with - | r0
  · rfl
  · rw [hd] at h; cases h

/-! ## Claim C10 -/

/-- Claim C10 (confirmed): `_classify_competency_items` processes each
input item with exactly one branch of its cascade, so an item contributes
to exactly one of the four pre-deduplication lists unless it is dropped;
and it is dropped precisely when it is `None`, not a string, shorter than
4 characters after stripping, or a link / PCI / values item whose text
becomes empty once its recognised head pattern is stripped
(`claimDropB`, written from the claim's wording as an order-independent
disjunction). -/
theorem c10_partition (it : PyVal) :
    classifyStep it = ItemDest.dropped ↔ claimDropB it = true := by
  cases it with
  | pyNone => simp [classifyStep, claimDropB]
  | pyOther => simp [classifyStep, claimDropB]
  | pyStr s =>
    simp only [classifyStep, claimDropB]
    by_cases h4 : (stripWs s.toList).length < 4
    · rw [if_pos (by simp [String.toList]; exact Or.inr h4), if_pos h4]
      simp
    · have hdne : ¬(s.data = []) := by
        intro h
        apply h4
        rw [show s.toList = s.data from rfl, h]
        simp [stripWs]
      rw [if_neg (by simp [String.toList, hdne]; exact not_lt.mp h4), if_neg h4]
      set T := stripWs s.toList with hT
      by_cases b1 : linkRuleMatch T = true
      · rw [if_pos b1]
        by_cases e1 : (stripWs ((linkRuleStrip T).getD T)).isEmpty = true
        · rw [if_pos e1]
          simp [cleanedAfter, b1, e1]
        · rw [if_neg e1]
          have hp := link_pert_excl b1
          have hv := link_vkm_excl b1
          simp [cleanedAfter, b1, e1, hp, hv]
      · rw [if_neg b1]
        have b1f : linkRuleMatch T = false := Bool.eq_false_iff.mpr b1
        by_cases b2 : (containsSeq "link to other".toList (lcase T) ||
            containsSeq "links to other".toList (lcase T)) = true
        · rw [if_pos b2]
          have hd2 : (pertMatch T && (cleanedAfter pertStrip T).isEmpty) = false := by
            rcases hpm : pertMatch T with - | -
            · rfl
            · rcases pertStrip_of_match hpm with ⟨r, hr⟩
              rcases hcl : (stripWs r).isEmpty with - | -
              · simp [cleanedAfter, hr, hcl]
              · exfalso
                have hnil : stripWs r = [] := List.isEmpty_iff.mp hcl
                have hws := (stripWs_eq_nil_iff r).mp hnil
                have hnk := no_k_of_decomp (pertStrip_noK hr) hws
                have hcont := not_contains_link hnk
                rw [hcont.1, hcont.2] at b2
                simp at b2
          have hd3 : (valuesKeyMatch T && (cleanedAfter valuesStrip T).isEmpty) = false := by
            rcases hvm : valuesKeyMatch T with - | -
            · rfl
            · rcases valuesStrip_of_match hvm with ⟨r, hr⟩
              rcases hcl : (stripWs r).isEmpty with - | -
              · simp [cleanedAfter, hr, hcl]
              · exfalso
                have hnil : stripWs r = [] := List.isEmpty_iff.mp hcl
                have hws := (stripWs_eq_nil_iff r).mp hnil
                have hnk := no_k_of_decomp (valuesStrip_noK hr) hws
                have hcont := not_contains_link hnk
                rw [hcont.1, hcont.2] at b2
                simp at b2
          simp [b1f, hd2, hd3]
        · rw [if_neg b2]
          by_cases b3 : (pertMatch T || pciStart T) = true
          · rw [if_pos b3]
            by_cases hpm : pertMatch T = true
            · by_cases e3 : (stripWs ((pertStrip T).getD T)).isEmpty = true
              · rw [if_pos e3]
                simp [cleanedAfter, b1f, hpm, e3]
              · rw [if_neg e3]
                have hv := pert_vkm_excl hpm
                simp [cleanedAfter, b1f, hpm, e3, hv]
            · have hpm' : pertMatch T = false := Bool.eq_false_iff.mpr hpm
              have hpci : pciStart T = true := by
                have hb := b3
                simp only [Bool.or_eq_true] at hb
                rcases hb with h | h
                · exact absurd h hpm
                · exact h
              have hps : pertStrip T = none := pertStrip_none_of_not_match hpm'
              have hTne : (stripWs ((pertStrip T).getD T)).isEmpty = false := by
                rw [hps]
                dsimp only [Option.getD]
                rcases hE : (stripWs T).isEmpty with - | -
                · rfl
                · exfalso
                  have hnil := List.isEmpty_iff.mp hE
                  have hall := (stripWs_eq_nil_iff T).mp hnil
                  have hTnil : T = [] := by
                    rw [hT]
                    exact stripWs_all_ws_eq_nil s.toList (by rw [← hT]; exact hall)
                  apply h4
                  rw [hTnil]
                  simp
              rw [if_neg (by simp [hTne])]
              have hv := pci_vkm_excl hpci
              simp [cleanedAfter, b1f, hpm', hv, hps, hTne]
          · rw [if_neg b3]
            have hpm' : pertMatch T = false := by
              rcases h : pertMatch T with - | -
              · rfl
              · exact absurd (by simp [h] : (pertMatch T || pciStart T) = true) b3
            by_cases b4 : valuesKeyMatch T = true
            · rw [if_pos b4]
              by_cases e4 : (stripWs ((valuesStrip T).getD T)).isEmpty = true
              · rw [if_pos e4]
                simp [cleanedAfter, b1f, hpm', b4, e4]
              · rw [if_neg e4]
                simp [cleanedAfter, b1f, hpm', b4, e4]
            · rw [if_neg b4]
              have b4f : valuesKeyMatch T = false := Bool.eq_false_iff.mpr b4
              have hclaim :
                  ((linkRuleMatch T && (cleanedAfter linkRuleStrip T).isEmpty) ||
                   (pertMatch T && (cleanedAfter pertStrip T).isEmpty) ||
                   (valuesKeyMatch T && (cleanedAfter valuesStrip T).isEmpty)) = false := by
                simp [b1f, hpm', b4f]
              rw [hclaim]
              simp only [Bool.false_eq_true, iff_false]
              split
              · simp
              · split
                · split <;> simp
                · simp
